import Mathlib

/-!
HD44780 4-bit GPIO driver (`gpio_conn.go`).

A shallow embedding of the Go type `GPIO4bit` and of its methods.

* A Go `string` and a Go `[]byte` are lists of bytes; a byte is a `Nat` below 256 and
  byte arithmetic is reduced `% 256` where the source can overflow.
* A Go `int` is an `Int`.
* Every method is a function from the driver state to a `Run`: the state the call
  leaves, the calls it made on the outside world (pins, sleeps, the `rpio`
  session) in order, and how it ended (return, returned error, Go panic).
* The mutex is not modelled: every method body is executed as one atomic step.
-/

namespace HD44780

/-! ## The outside world -/

/-- The six logical lines of the controller, one per `rpio.Pin` field of `GPIO4bit`. -/
inductive Line
  | RS | E | D4 | D5 | D6 | D7
  deriving DecidableEq, Repr

/-- One call made by the driver on the outside world. `high l p` is `h.lcd<l>.High()`
where the field holds pin `p`; `low` likewise. -/
inductive Event
  | high (l : Line) (p : Nat)
  | low (l : Line) (p : Nat)
  | sleep (d : Nat)
  | rpioOpen (err : Option String)
  | rpioClose
  | initPin (n : Int)
  deriving DecidableEq, Repr

/-- How a call ended: plain return (a nil error where there is an error result),
return of a non-nil error, or a Go panic unwinding out of the method. -/
inductive Exit
  | ret
  | err (e : String)
  | panic (msg : String)
  deriving DecidableEq, Repr

/-- Package-level declarations that `gpio_conn.go` reads and that are declared in
another file of the package: default pins and geometry, the four row addresses,
the two timing constants (nanoseconds) and the pin returned by `initPin`. -/
structure Pkg where
  RSPin : Int
  EPin : Int
  D4Pin : Int
  D5Pin : Int
  D6Pin : Int
  D7Pin : Int
  Lines : Int
  Width : Int
  lcdLine1 : Nat
  lcdLine2 : Nat
  lcdLine3 : Nat
  lcdLine4 : Nat
  eDelay : Nat
  ePulse : Nat
  pinOf : Int → Nat

/-- Modelled from the spec: the constant `lcdCmd` is declared outside `gpio_conn.go`;
the spec fixes register-select low for the command register. -/
def lcdCmd : Bool := false

/-- Modelled from the spec: the constant `lcdChr` is declared outside `gpio_conn.go`;
the spec fixes register-select high for the character register. -/
def lcdChr : Bool := true

/-- Go `time.Millisecond` in nanoseconds. -/
def millisecond : Nat := 1000000

/-- Go `time.Microsecond` in nanoseconds. -/
def microsecond : Nat := 1000

/-! ## The driver state -/

/-- The struct `GPIO4bit` (lines 12-38) without its mutex. -/
structure GPIO4bit where
  RSPin : Int
  EPin : Int
  D4Pin : Int
  D5Pin : Int
  D6Pin : Int
  D7Pin : Int
  Lines : Int
  LinesAddr : List Nat
  Width : Int
  lcdRS : Nat
  lcdE : Nat
  lcdD4 : Nat
  lcdD5 : Nat
  lcdD6 : Nat
  lcdD7 : Nat
  lastLines : List (List Nat)
  active : Bool
  deriving DecidableEq, Repr

/-- The outcome of one method call. -/
structure Run where
  h : GPIO4bit
  trace : List Event
  exit : Exit
  deriving DecidableEq, Repr

/-- `NewGPIO4bit` (lines 41-54); the fields it does not name get Go zero values. -/
def NewGPIO4bit (k : Pkg) : GPIO4bit :=
  { RSPin := k.RSPin, EPin := k.EPin, D4Pin := k.D4Pin, D5Pin := k.D5Pin,
    D6Pin := k.D6Pin, D7Pin := k.D7Pin,
    Lines := k.Lines,
    LinesAddr := [k.lcdLine1, k.lcdLine2, k.lcdLine3, k.lcdLine4],
    Width := k.Width,
    lcdRS := 0, lcdE := 0, lcdD4 := 0, lcdD5 := 0, lcdD6 := 0, lcdD7 := 0,
    lastLines := [], active := false }

/-! ## Go primitives used by the methods -/

/-- Go indexing `xs[i]` with an `int` index: `none` is the runtime panic
"index out of range". -/
def goIndex {α : Type} (xs : List α) (i : Int) : Option α :=
  if i < 0 then none else xs[i.toNat]?

/-- Go `strings.Repeat(" ", n)`: panics on a negative count. -/
def stringsRepeatSpace (n : Int) : Except String (List Nat) :=
  if n < 0 then .error "strings: negative Repeat count"
  else .ok (List.replicate n.toNat 32)

/-- Go slice expression `text[:n]` on a string: panics unless `0 ≤ n ≤ len(text)`. -/
def sliceTo (text : List Nat) (n : Int) : Except String (List Nat) :=
  if n < 0 ∨ (text.length : Int) < n then .error "slice bounds out of range"
  else .ok (text.take n.toNat)

/-- Go `make([]string, n, n)`: panics on a negative length. -/
def makeStrings (n : Int) : Except String (List (List Nat)) :=
  if n < 0 then .error "makeslice: len out of range"
  else .ok (List.replicate n.toNat [])

/-- Go `strings.Split(msg, "\n")`: the pieces between line feeds (byte 10), one more
than the number of line feeds. -/
def splitLines : List Nat → List (List Nat)
  | [] => [[]]
  | b :: rest =>
    if b = 10 then [] :: splitLines rest
    else
      match splitLines rest with
      | [] => [[b]]
      | p :: ps => (b :: p) :: ps

/-! ## Bit-level transmission (lines 184-241) -/

/-- `push4bits` (lines 214-241). -/
def push4bits (k : Pkg) (h : GPIO4bit) (bits : Nat) : List Event :=
  [ if bits &&& 0x01 = 0x01 then .high .D4 h.lcdD4 else .low .D4 h.lcdD4,
    if bits &&& 0x02 = 0x02 then .high .D5 h.lcdD5 else .low .D5 h.lcdD5,
    if bits &&& 0x04 = 0x04 then .high .D6 h.lcdD6 else .low .D6 h.lcdD6,
    if bits &&& 0x08 = 0x08 then .high .D7 h.lcdD7 else .low .D7 h.lcdD7,
    .sleep k.ePulse,
    .high .E h.lcdE,
    .sleep k.ePulse,
    .low .E h.lcdE,
    .sleep k.ePulse ]

/-- `writeByte` (lines 184-198). -/
def writeByte (k : Pkg) (h : GPIO4bit) (bits : Nat) (characterMode : Bool) : List Event :=
  [ if characterMode then .high .RS h.lcdRS else .low .RS h.lcdRS ]
    ++ push4bits k h (bits >>> 4)
    ++ push4bits k h bits
    ++ [ .sleep k.eDelay ]

/-- `write4Bits` (lines 201-211). -/
def write4Bits (k : Pkg) (h : GPIO4bit) (bits : Nat) (characterMode : Bool) : List Event :=
  [ if characterMode then .high .RS h.lcdRS else .low .RS h.lcdRS ]
    ++ push4bits k h bits
    ++ [ .sleep k.eDelay ]

/-- The private `reset` (lines 94-112). -/
def reset (k : Pkg) (h : GPIO4bit) : List Event :=
  write4Bits k h 0x3 lcdCmd ++ [ .sleep (5 * millisecond) ]
    ++ write4Bits k h 0x3 lcdCmd ++ [ .sleep (240 * microsecond) ]
    ++ write4Bits k h 0x3 lcdCmd ++ [ .sleep (240 * microsecond) ]
    ++ write4Bits k h 0x2 lcdCmd ++ [ .sleep (240 * microsecond) ]
    ++ writeByte k h 0x28 lcdCmd
    ++ writeByte k h 0x0C lcdCmd
    ++ writeByte k h 0x06 lcdCmd
    ++ writeByte k h 0x01 lcdCmd ++ [ .sleep (5 * millisecond) ]

/-! ## Lifecycle (lines 57-181) -/

/-- `Open` (lines 57-80). `acquire` is what `rpio.Open()` answers: `none` for a nil
error. -/
def Open (k : Pkg) (acquire : Option String) (h : GPIO4bit) : Run :=
  if h.active then ⟨h, [], .ret⟩
  else
    match acquire with
    | some e => ⟨h, [.rpioOpen (some e)], .err e⟩
    | none =>
      let h1 := { h with
        lcdRS := k.pinOf h.RSPin, lcdE := k.pinOf h.EPin,
        lcdD4 := k.pinOf h.D4Pin, lcdD5 := k.pinOf h.D5Pin,
        lcdD6 := k.pinOf h.D6Pin, lcdD7 := k.pinOf h.D7Pin }
      let binds : List Event :=
        [ .rpioOpen none, .initPin h.RSPin, .initPin h.EPin, .initPin h.D4Pin,
          .initPin h.D5Pin, .initPin h.D6Pin, .initPin h.D7Pin ]
      match makeStrings h1.Lines with
      | .error msg => ⟨h1, binds, .panic msg⟩
      | .ok ls =>
        let h2 := { h1 with lastLines := ls }
        ⟨{ h2 with active := true }, binds ++ reset k h2, .ret⟩

/-- `Active` (lines 83-85). -/
def Active (h : GPIO4bit) : Bool := h.active

/-- `Reset` (lines 88-92). -/
def Reset (k : Pkg) (h : GPIO4bit) : Run :=
  ⟨h, reset k h, .ret⟩

/-- One `for i := 0; i < Width; i++ { h.writeByte(' ', lcdChr) }` loop of `Clear` and
`Close`; the bound is the package-level `Width`. -/
def blanks (k : Pkg) (h : GPIO4bit) : List Event :=
  (List.range k.Width.toNat).flatMap (fun _ => writeByte k h 32 lcdChr)

/-- The statements shared by `Clear` (lines 123-138) and `Close` (lines 150-165). -/
def sweep (k : Pkg) (h : GPIO4bit) : List Event :=
  writeByte k h k.lcdLine1 lcdCmd ++ blanks k h
    ++ writeByte k h k.lcdLine2 lcdCmd ++ blanks k h
    ++ writeByte k h k.lcdLine3 lcdCmd ++ blanks k h
    ++ writeByte k h k.lcdLine4 lcdCmd ++ blanks k h

/-- `Clear` (lines 115-139). -/
def Clear (k : Pkg) (h : GPIO4bit) : Run :=
  if !h.active then ⟨h, [], .ret⟩
  else ⟨h, sweep k h, .ret⟩

/-- `Close` (lines 142-181). -/
def Close (k : Pkg) (h : GPIO4bit) : Run :=
  if !h.active then ⟨h, [], .ret⟩
  else
    ⟨{ h with active := false },
      sweep k h
        ++ writeByte k h 0x01 lcdCmd ++ [ .sleep (5 * millisecond) ]
        ++ writeByte k h 0x0C lcdCmd
        ++ [ .low .RS h.lcdRS, .low .E h.lcdE, .low .D4 h.lcdD4, .low .D5 h.lcdD5,
             .low .D6 h.lcdD6, .low .D7 h.lcdD7, .rpioClose ],
      .ret⟩

/-! ## Text output (lines 244-291) -/

/-- Lines 263-267 of `Display`: the length test reads the package-level `Width`, both
branches use the field `h.Width`. -/
def padOrCut (k : Pkg) (h : GPIO4bit) (text : List Nat) : Except String (List Nat) :=
  if (text.length : Int) < k.Width then
    (stringsRepeatSpace (h.Width - text.length)).map (fun pad => text ++ pad)
  else
    sliceTo text h.Width

/-- The loop of lines 278-280 from counter value `c` with `n` iterations to go. -/
def writeText (k : Pkg) (h : GPIO4bit) (text : List Nat) : Nat → Nat → List Event × Exit
  | _, 0 => ([], .ret)
  | c, n + 1 =>
    match text[c]? with
    | none => ([], .panic "index out of range")
    | some b =>
      let rest := writeText k h text (c + 1) n
      (writeByte k h b lcdChr ++ rest.1, rest.2)

/-- `Display` (lines 251-281). -/
def Display (k : Pkg) (h : GPIO4bit) (line : Int) (text : List Nat) : Run :=
  if !h.active then ⟨h, [], .ret⟩
  else if line ≥ h.Lines then ⟨h, [], .ret⟩
  else
    match padOrCut k h text with
    | .error msg => ⟨h, [], .panic msg⟩
    | .ok text =>
      match goIndex h.lastLines line with
      | none => ⟨h, [], .panic "index out of range"⟩
      | some last =>
        if last = text then ⟨h, [], .ret⟩
        else
          let h1 := { h with lastLines := h.lastLines.set line.toNat text }
          match goIndex h1.LinesAddr line with
          | none => ⟨h1, [], .panic "index out of range"⟩
          | some addr =>
            let chars := writeText k h1 text 0 h1.Width.toNat
            ⟨h1, writeByte k h1 addr lcdCmd ++ chars.1, chars.2⟩

/-- The `range` loop of `DisplayLines` from row `line` on; a panic in `Display` ends it. -/
def displayFrom (k : Pkg) : GPIO4bit → Nat → List (List Nat) → Run
  | h, _, [] => ⟨h, [], .ret⟩
  | h, line, text :: rest =>
    let r := Display k h (line : Int) text
    match r.exit with
    | .ret =>
      let r2 := displayFrom k r.h (line + 1) rest
      ⟨r2.h, r.trace ++ r2.trace, r2.exit⟩
    | e => ⟨r.h, r.trace, e⟩

/-- `DisplayLines` (lines 244-248). -/
def DisplayLines (k : Pkg) (h : GPIO4bit) (msg : List Nat) : Run :=
  displayFrom k h 0 (splitLines msg)

/-- `SetChar` (lines 283-291); `pos` is a byte, so `0x40+pos*8` is taken `% 256`. -/
def SetChar (k : Pkg) (h : GPIO4bit) (pos : Nat) (glyph : List Nat) : Run :=
  if glyph.length ≠ 8 then ⟨h, [], .panic "invalid def - req 8 bytes"⟩
  else
    ⟨h, writeByte k h ((0x40 + pos * 8) % 256) lcdCmd
          ++ glyph.flatMap (fun d => writeByte k h d lcdChr),
      .ret⟩

/-- `ToggleBacklight` (lines 293-294). -/
def ToggleBacklight (h : GPIO4bit) : Run :=
  ⟨h, [], .ret⟩

/-! ## Observers used to state the properties -/

/-- Number of pin-state calls (`High()` / `Low()`) in a trace. -/
def pinCalls : List Event → Nat
  | [] => 0
  | .high _ _ :: t => pinCalls t + 1
  | .low _ _ :: t => pinCalls t + 1
  | _ :: t => pinCalls t

/-- Number of `initPin` calls in a trace. -/
def pinBinds : List Event → Nat
  | [] => 0
  | .initPin _ :: t => pinBinds t + 1
  | _ :: t => pinBinds t

/-- Levels of the six lines as the controller sees them. -/
structure Pins where
  rs : Bool
  e : Bool
  d4 : Bool
  d5 : Bool
  d6 : Bool
  d7 : Bool
  deriving DecidableEq, Repr

/-- Level change of one line. -/
def Pins.drive (p : Pins) : Line → Bool → Pins
  | .RS, v => { p with rs := v }
  | .E, v => { p with e := v }
  | .D4, v => { p with d4 := v }
  | .D5, v => { p with d5 := v }
  | .D6, v => { p with d6 := v }
  | .D7, v => { p with d7 := v }

/-- The nibble on the data lines: D4 is bit 0, D7 is bit 3. -/
def Pins.nibble (p : Pins) : Nat :=
  p.d4.toNat + 2 * p.d5.toNat + 4 * p.d6.toNat + 8 * p.d7.toNat

/-- Line levels after a trace. -/
def pinsAfter : Pins → List Event → Pins
  | p, [] => p
  | p, .high l _ :: t => pinsAfter (p.drive l true) t
  | p, .low l _ :: t => pinsAfter (p.drive l false) t
  | p, _ :: t => pinsAfter p t

/-- What the controller latches: at every falling edge of E, the register-select
level and the nibble on the data lines. -/
def latched : Pins → List Event → List (Bool × Nat)
  | _, [] => []
  | p, .high l _ :: t => latched (p.drive l true) t
  | p, .low l _ :: t =>
    if l = Line.E ∧ p.e = true then (p.rs, p.nibble) :: latched (p.drive l false) t
    else latched (p.drive l false) t
  | p, _ :: t => latched p t

/-- Bytes of a 4-bit transfer: latched nibbles taken two by two, high nibble first;
each byte comes with the register-select level of its nibbles (`true` for a data
byte, `false` for a command byte). -/
def busBytes : List (Bool × Nat) → List (Bool × Nat)
  | (rs, hi) :: (_, lo) :: t => (rs, 16 * hi + lo) :: busBytes t
  | _ => []

/-- The text `Display` is specified to show: right-padded with spaces to `w`, or cut
to its first `w` bytes. -/
def padded (w : Nat) (text : List Nat) : List Nat :=
  if text.length < w then text ++ List.replicate (w - text.length) 32
  else text.take w

/-! ## A sample installation

Pins as in the field comments of `GPIO4bit`, two rows of sixteen characters, the usual
HD44780 row addresses. -/

/-- Sample values for the package-level declarations. -/
def rpi : Pkg :=
  { RSPin := 7, EPin := 8, D4Pin := 25, D5Pin := 24, D6Pin := 23, D7Pin := 18,
    Lines := 2, Width := 16,
    lcdLine1 := 0x80, lcdLine2 := 0xC0, lcdLine3 := 0x94, lcdLine4 := 0xD4,
    eDelay := 70 * microsecond, ePulse := 1 * microsecond,
    pinOf := Int.toNat }

/-- The sample driver after a successful `Open`. -/
def opened : GPIO4bit := (Open rpi none (NewGPIO4bit rpi)).h

/-- All lines low. -/
def allLow : Pins := ⟨false, false, false, false, false, false⟩

/-- The bytes of "Hi". -/
def hi : List Nat := [72, 105]

/-- The sample driver with `Width` overridden to 20 before a successful `Open`. -/
def wide : GPIO4bit := (Open rpi none { NewGPIO4bit rpi with Width := 20 }).h

/-- The sample driver with `Width` overridden to 8 before a successful `Open`. -/
def narrow : GPIO4bit := (Open rpi none { NewGPIO4bit rpi with Width := 8 }).h

/-- An all-zero glyph of eight rows. -/
def blankGlyph : List Nat := [0, 0, 0, 0, 0, 0, 0, 0]

/-- The bytes of "1234567890123456789", the 19-character text of the spec. -/
def digits19 : List Nat :=
  [49, 50, 51, 52, 53, 54, 55, 56, 57, 48, 49, 50, 51, 52, 53, 54, 55, 56, 57]

/-! ## Clients: sequences of method calls -/

/-- One call of a public method by a client of the driver. -/
inductive Call
  | Open (acquire : Option String)
  | Reset
  | Display (line : Int) (text : List Nat)
  | DisplayLines (msg : List Nat)
  | Clear
  | SetChar (pos : Nat) (glyph : List Nat)
  | Close
  deriving DecidableEq, Repr

/-- The method a `Call` stands for, run on the driver. -/
def Call.run (k : Pkg) (h : GPIO4bit) : Call → Run
  | .Open acquire => HD44780.Open k acquire h
  | .Reset => HD44780.Reset k h
  | .Display line text => HD44780.Display k h line text
  | .DisplayLines msg => HD44780.DisplayLines k h msg
  | .Clear => HD44780.Clear k h
  | .SetChar pos glyph => HD44780.SetChar k h pos glyph
  | .Close => HD44780.Close k h

/-- The driver after a client made the calls in order; a call that panicked leaves the
driver as it was at the panic and the client goes on (a recovered panic). -/
def afterCalls (k : Pkg) : GPIO4bit → List Call → GPIO4bit
  | h, [] => h
  | h, c :: cs => afterCalls k (c.run k h).h cs

/-- Whether, at the end of the calls, a successful `Open` (one that returned a nil error)
has occurred with no `Close` after it; `b` is the answer before the calls. -/
def openNotClosed (k : Pkg) : GPIO4bit → Bool → List Call → Bool
  | _, b, [] => b
  | h, b, .Open acquire :: cs =>
    openNotClosed k (HD44780.Open k acquire h).h
      (if (HD44780.Open k acquire h).exit = Exit.ret then true else b) cs
  | h, _, .Close :: cs => openNotClosed k (HD44780.Close k h).h false cs
  | h, b, c :: cs => openNotClosed k (c.run k h).h b cs

/-- A client making the calls one after the other: the traces in order, the final
state; a panic is not recovered and ends the sequence. -/
def callSeq (k : Pkg) : GPIO4bit → List Call → Run
  | h, [] => ⟨h, [], .ret⟩
  | h, c :: cs =>
    match (c.run k h).exit with
    | .panic msg => ⟨(c.run k h).h, (c.run k h).trace, .panic msg⟩
    | _ =>
      ⟨(callSeq k (c.run k h).h cs).h,
        (c.run k h).trace ++ (callSeq k (c.run k h).h cs).trace,
        (callSeq k (c.run k h).h cs).exit⟩

/-- The calls `Display(i, line_i)`, `Display(i+1, line_{i+1})`, ... for the given lines. -/
def displayCalls : Nat → List (List Nat) → List Call
  | _, [] => []
  | i, t :: ts => .Display (i : Int) t :: displayCalls (i + 1) ts

/-! ## More observers -/

/-- The pin-state calls of a trace, in order: which line, which level. -/
def pinActions : List Event → List (Line × Bool)
  | [] => []
  | .high l _ :: t => (l, true) :: pinActions t
  | .low l _ :: t => (l, false) :: pinActions t
  | _ :: t => pinActions t

/-- The pin-state calls that put the nibble `n` on the data lines (D4 is bit 0, D7 is
bit 3) and then raise and lower E. -/
def strobe (n : Nat) : List (Line × Bool) :=
  [ (Line.D4, n.testBit 0), (Line.D5, n.testBit 1), (Line.D6, n.testBit 2),
    (Line.D7, n.testBit 3), (Line.E, true), (Line.E, false) ]

/-- Time slept at the head of a trace before E is next raised (or the trace ends). -/
def settle : List Event → Nat
  | [] => 0
  | .sleep d :: t => d + settle t
  | .high l _ :: t => if l = Line.E then 0 else settle t
  | _ :: t => settle t

/-- The nibbles of `latched`, each with the time slept between its falling edge of E
and the next raising of E. -/
def latchedSettle : Pins → List Event → List (Bool × Nat × Nat)
  | _, [] => []
  | p, .high l _ :: t => latchedSettle (p.drive l true) t
  | p, .low l _ :: t =>
    if l = Line.E ∧ p.e = true then
      (p.rs, p.nibble, settle t) :: latchedSettle (p.drive l false) t
    else latchedSettle (p.drive l false) t
  | p, _ :: t => latchedSettle p t

/-- Bus bytes of one blanked row: the address command, then `w` spaces as data. -/
def blankRow (addr w : Nat) : List (Bool × Nat) :=
  (false, addr) :: List.replicate w (true, 32)

/-- The bus bytes of the statements shared by `Clear` and `Close`: the four rows at the
package-level addresses, each blanked over the package-level `Width`. -/
def packageSweep (k : Pkg) : List (Bool × Nat) :=
  blankRow (k.lcdLine1 % 256) k.Width.toNat ++ blankRow (k.lcdLine2 % 256) k.Width.toNat
    ++ blankRow (k.lcdLine3 % 256) k.Width.toNat ++ blankRow (k.lcdLine4 % 256) k.Width.toNat

/-- What `Clear` is specified to transmit: for each configured row in order, its
`LinesAddr` entry followed by `Width` spaces. -/
def clearSpec (h : GPIO4bit) : List (Bool × Nat) :=
  (h.LinesAddr.take h.Lines.toNat).flatMap (fun a => blankRow a h.Width.toNat)

/-- The sample driver with its geometry set by the caller before a successful `Open`:
two rows at addresses 0x00 and 0x40, twenty characters wide. -/
def custom : GPIO4bit :=
  (Open rpi none { NewGPIO4bit rpi with Lines := 2, LinesAddr := [0x00, 0x40], Width := 20 }).h


/-! ## The bus: what a trace makes the controller latch -/

theorem land_two_pow_eq_iff (n i : Nat) : n &&& 2 ^ i = 2 ^ i ↔ n / 2 ^ i % 2 = 1 := by
  rw [Nat.and_two_pow, Nat.testBit_to_div_mod]
  have hpos : 0 < 2 ^ i := Nat.two_pow_pos i
  by_cases hb : n / 2 ^ i % 2 = 1
  · simp [hb]
  · simp [hb]
    omega

theorem nibble_of_tests (n : Nat) :
    (decide (n &&& 0x01 = 0x01)).toNat + 2 * (decide (n &&& 0x02 = 0x02)).toNat
      + 4 * (decide (n &&& 0x04 = 0x04)).toNat + 8 * (decide (n &&& 0x08 = 0x08)).toNat
      = n % 16 := by
  have h0 := land_two_pow_eq_iff n 0
  have h1 := land_two_pow_eq_iff n 1
  have h2 := land_two_pow_eq_iff n 2
  have h3 := land_two_pow_eq_iff n 3
  norm_num at h0 h1 h2 h3
  by_cases c0 : n % 2 = 1 <;> by_cases c1 : n / 2 % 2 = 1 <;>
    by_cases c2 : n / 4 % 2 = 1 <;> by_cases c3 : n / 8 % 2 = 1 <;>
    simp [h0, h1, h2, h3, c0, c1, c2, c3] <;> omega

theorem latched_append (p : Pins) (s t : List Event) :
    latched p (s ++ t) = latched p s ++ latched (pinsAfter p s) t := by
  induction s generalizing p with
  | nil => rfl
  | cons ev s ih =>
    cases ev with
    | low l x =>
      by_cases hl : l = Line.E ∧ p.e = true
      · simpa [latched, pinsAfter, hl] using ih _
      · simpa [latched, pinsAfter, hl] using ih _
    | high l x => simpa [latched, pinsAfter] using ih _
    | sleep d => simpa [latched, pinsAfter] using ih _
    | rpioOpen e => simpa [latched, pinsAfter] using ih _
    | rpioClose => simpa [latched, pinsAfter] using ih _
    | initPin n => simpa [latched, pinsAfter] using ih _

theorem pinsAfter_append (p : Pins) (s t : List Event) :
    pinsAfter p (s ++ t) = pinsAfter (pinsAfter p s) t := by
  induction s generalizing p with
  | nil => rfl
  | cons ev s ih => cases ev <;> simpa [pinsAfter] using ih _

theorem latched_data_line (p : Pins) (c : Prop) [Decidable c] (l : Line) (x : Nat)
    (hl : l ≠ Line.E) (t : List Event) :
    latched p ((if c then Event.high l x else Event.low l x) :: t)
      = latched (p.drive l (decide c)) t := by
  by_cases hc : c <;> simp [hc, latched, hl]

theorem pinsAfter_line (p : Pins) (c : Prop) [Decidable c] (l : Line) (x : Nat)
    (t : List Event) :
    pinsAfter p ((if c then Event.high l x else Event.low l x) :: t)
      = pinsAfter (p.drive l (decide c)) t := by
  by_cases hc : c <;> simp [hc, pinsAfter]

theorem latched_push4bits (k : Pkg) (h : GPIO4bit) (p : Pins) (n : Nat) :
    latched p (push4bits k h n) = [(p.rs, n % 16)] := by
  unfold push4bits
  rw [latched_data_line _ _ _ _ (by decide), latched_data_line _ _ _ _ (by decide),
    latched_data_line _ _ _ _ (by decide), latched_data_line _ _ _ _ (by decide)]
  simp only [latched, Pins.drive, Pins.nibble, and_self, if_true, List.cons.injEq, and_true,
    Prod.mk.injEq, true_and]
  exact nibble_of_tests n

theorem pinsAfter_push4bits_rs (k : Pkg) (h : GPIO4bit) (p : Pins) (n : Nat) :
    (pinsAfter p (push4bits k h n)).rs = p.rs := by
  unfold push4bits
  rw [pinsAfter_line, pinsAfter_line, pinsAfter_line, pinsAfter_line]
  simp [pinsAfter, Pins.drive]

theorem latched_writeByte (k : Pkg) (h : GPIO4bit) (p : Pins) (b : Nat) (m : Bool) :
    latched p (writeByte k h b m) = [(m, (b >>> 4) % 16), (m, b % 16)] := by
  unfold writeByte
  have hrs : ∀ t, latched p ((if m = true then Event.high Line.RS h.lcdRS
      else Event.low Line.RS h.lcdRS) :: t) = latched (p.drive Line.RS m) t := by
    intro t
    cases m <;> simp [latched]
  simp only [List.append_assoc, List.singleton_append, List.cons_append, List.nil_append]
  rw [hrs, latched_append (p.drive Line.RS m) (push4bits k h (b >>> 4)),
    latched_append _ (push4bits k h b), latched_push4bits, latched_push4bits,
    pinsAfter_push4bits_rs]
  cases m <;> simp [latched, Pins.drive]

theorem busBytes_writeByte (k : Pkg) (h : GPIO4bit) (p : Pins) (b : Nat) (m : Bool)
    (t : List Event) :
    busBytes (latched p (writeByte k h b m ++ t))
      = (m, b % 256) :: busBytes (latched (pinsAfter p (writeByte k h b m)) t) := by
  rw [latched_append, latched_writeByte]
  simp only [List.cons_append, List.nil_append, busBytes, List.cons.injEq, Prod.mk.injEq,
    true_and, and_true]
  rw [Nat.shiftRight_eq_div_pow]
  refine ⟨by omega, rfl⟩

theorem busBytes_flatMap (k : Pkg) (h : GPIO4bit) (m : Bool) (bs : List Nat) (p : Pins)
    (t : List Event) :
    busBytes (latched p (bs.flatMap (fun b => writeByte k h b m) ++ t))
      = bs.map (fun b => (m, b % 256))
        ++ busBytes (latched (pinsAfter p (bs.flatMap (fun b => writeByte k h b m))) t) := by
  induction bs generalizing p with
  | nil => simp [pinsAfter]
  | cons b bs ih =>
    simp only [List.flatMap_cons, List.append_assoc, List.map_cons, List.cons_append]
    rw [busBytes_writeByte, ih, pinsAfter_append]

/-! ## `Display` -/

theorem padded_length (w : Nat) (text : List Nat) : (padded w text).length = w := by
  unfold padded
  split
  · simp only [List.length_append, List.length_replicate]
    omega
  · simp only [List.length_take]
    omega

theorem padOrCut_default (k : Pkg) (h : GPIO4bit) (text : List Nat)
    (hwidth : h.Width = k.Width) (hw0 : 0 ≤ h.Width) :
    padOrCut k h text = .ok (padded h.Width.toNat text) := by
  unfold padOrCut padded stringsRepeatSpace sliceTo
  by_cases hlt : (text.length : Int) < k.Width
  · have h1 : ¬ (h.Width - (text.length : Int) < 0) := by omega
    have h2 : text.length < h.Width.toNat := by omega
    have h3 : (h.Width - (text.length : Int)).toNat = h.Width.toNat - text.length := by omega
    simp [hlt, h1, h2, h3, Except.map]
  · have h1 : ¬ (h.Width < 0 ∨ (text.length : Int) < h.Width) := by omega
    have h2 : ¬ (text.length < h.Width.toNat) := by omega
    simp [hlt, h1, h2]

theorem writeText_within (k : Pkg) (h : GPIO4bit) (text : List Nat) (n c : Nat)
    (hlen : c + n ≤ text.length) :
    writeText k h text c n
      = (((text.drop c).take n).flatMap (fun b => writeByte k h b lcdChr), Exit.ret) := by
  induction n generalizing c with
  | zero => simp [writeText]
  | succ n ih =>
    have hc : c < text.length := by omega
    have hdrop : text.drop c = text[c] :: text.drop (c + 1) := List.drop_eq_getElem_cons hc
    rw [writeText, List.getElem?_eq_getElem hc]
    simp only [ih (c + 1) (by omega), hdrop, List.take_succ_cons, List.flatMap_cons]

theorem writeText_all (k : Pkg) (h : GPIO4bit) (text : List Nat) :
    writeText k h text 0 text.length
      = (text.flatMap (fun b => writeByte k h b lcdChr), Exit.ret) := by
  rw [writeText_within k h text text.length 0 (by omega)]
  simp

theorem Display_sends (k : Pkg) (h : GPIO4bit) (line : Int) (text row last : List Nat)
    (addr : Nat) (hact : h.active = true) (hline : line < h.Lines)
    (hpad : padOrCut k h text = .ok row) (hlen : row.length = h.Width.toNat)
    (hlast : goIndex h.lastLines line = some last) (hdiff : last ≠ row)
    (haddr : goIndex h.LinesAddr line = some addr) :
    Display k h line text
      = ⟨{ h with lastLines := h.lastLines.set line.toNat row },
          writeByte k h addr lcdCmd ++ row.flatMap (fun b => writeByte k h b lcdChr),
          Exit.ret⟩ := by
  have hge : ¬ (line ≥ h.Lines) := by omega
  unfold Display
  rw [if_neg (by simp [hact]), if_neg hge]
  simp only [hpad, hlast, haddr]
  rw [if_neg hdiff]
  simp only [← hlen, writeText_all]
  rfl

theorem goIndex_set_same {α : Type} (xs : List α) (i : Int) (x y : α)
    (hi : goIndex xs i = some x) : goIndex (xs.set i.toNat y) i = some y := by
  unfold goIndex at *
  split at hi
  · exact absurd hi (by simp)
  · rename_i hneg
    have hlt : i.toNat < xs.length := by
      by_contra hcon
      rw [List.getElem?_eq_none (by omega)] at hi
      exact absurd hi (by simp)
    simp [hneg, List.getElem?_set, hlt]

theorem goIndex_in_range {α : Type} (xs : List α) (i : Int) (h0 : 0 ≤ i)
    (hi : i < xs.length) : ∃ x, goIndex xs i = some x ∧ x ∈ xs := by
  have hlt : i.toNat < xs.length := by omega
  refine ⟨xs[i.toNat], ?_, List.getElem_mem _⟩
  unfold goIndex
  simp [show ¬ i < 0 by omega, List.getElem?_eq_getElem hlt]

theorem Display_skips (k : Pkg) (h : GPIO4bit) (line : Int) (text row : List Nat)
    (hact : h.active = true) (hline : line < h.Lines)
    (hpad : padOrCut k h text = .ok row) (hlast : goIndex h.lastLines line = some row) :
    Display k h line text = ⟨h, [], Exit.ret⟩ := by
  unfold Display
  rw [if_neg (by simp [hact]), if_neg (by omega)]
  simp only [hpad, hlast, if_true]

/-- With the package-level width: on an active driver as `NewGPIO4bit` and `Open` leave it
(one shadow buffer and one address byte per row, `Width` equal to the package-level
`Width` and not negative), for a row `r` with `0 ≤ r < Lines` and a text whose padded or
cut form differs from the shadow buffer of row `r`, `Display` returns and the controller
receives, whatever the line levels were before, exactly the command byte `LinesAddr[r]`
followed by the `Width` bytes of the padded or cut text as data bytes, in order;
afterwards the shadow buffer of row `r` is that padded or cut text. -/
theorem Display_transmits_row (k : Pkg) (h : GPIO4bit) (r : Int) (text : List Nat) (p : Pins)
    (hact : h.active = true) (hr0 : 0 ≤ r) (hr : r < h.Lines)
    (hshadow : h.lastLines.length = h.Lines.toNat)
    (haddrs : h.Lines ≤ h.LinesAddr.length)
    (hwidth : h.Width = k.Width) (hw0 : 0 ≤ h.Width)
    (htext : ∀ b ∈ text, b < 256) (hbyte : ∀ a ∈ h.LinesAddr, a < 256)
    (hdiff : goIndex h.lastLines r ≠ some (padded h.Width.toNat text)) :
    ∃ addr, goIndex h.LinesAddr r = some addr ∧
      (Display k h r text).exit = Exit.ret ∧
      busBytes (latched p (Display k h r text).trace)
        = (false, addr) :: (padded h.Width.toNat text).map (fun c => (true, c)) ∧
      (padded h.Width.toNat text).length = h.Width.toNat ∧
      goIndex (Display k h r text).h.lastLines r = some (padded h.Width.toNat text) := by
  obtain ⟨addr, haddr, hmem⟩ := goIndex_in_range h.LinesAddr r hr0 (by omega)
  obtain ⟨last, hlast, -⟩ := goIndex_in_range h.lastLines r hr0 (by omega)
  have hne : last ≠ padded h.Width.toNat text := by
    intro hcon
    exact hdiff (by rw [hlast, hcon])
  have hrun := Display_sends k h r text _ last addr hact hr
    (padOrCut_default k h text hwidth hw0) (padded_length _ _) hlast hne haddr
  have hrow : ∀ b ∈ padded h.Width.toNat text, b < 256 := by
    intro b hb
    unfold padded at hb
    split at hb
    · rcases List.mem_append.1 hb with hb | hb
      · exact htext b hb
      · rw [(List.mem_replicate.1 hb).2]
        decide
    · exact htext b (List.mem_of_mem_take hb)
  refine ⟨addr, haddr, ?_, ?_, padded_length _ _, ?_⟩
  · rw [hrun]
  · rw [hrun]
    have hflat := busBytes_flatMap k h lcdChr (padded h.Width.toNat text)
      (pinsAfter p (writeByte k h addr lcdCmd)) []
    simp only [List.append_nil] at hflat
    show busBytes (latched p (writeByte k h addr lcdCmd ++ _)) = _
    rw [busBytes_writeByte, hflat, Nat.mod_eq_of_lt (hbyte addr hmem)]
    simp only [latched, busBytes, List.append_nil, lcdCmd, lcdChr, List.cons.injEq, true_and]
    exact List.map_congr_left (fun b hb => by rw [Nat.mod_eq_of_lt (hrow b hb)])
  · rw [hrun]
    exact goIndex_set_same _ _ _ _ hlast

theorem Display_transmits_row_witness :
    ∃ addr, goIndex opened.LinesAddr 0 = some addr ∧
      (Display rpi opened 0 hi).exit = Exit.ret ∧
      busBytes (latched allLow (Display rpi opened 0 hi).trace)
        = (false, addr) :: (padded opened.Width.toNat hi).map (fun c => (true, c)) ∧
      (padded opened.Width.toNat hi).length = opened.Width.toNat ∧
      goIndex (Display rpi opened 0 hi).h.lastLines 0 = some (padded opened.Width.toNat hi) :=
  Display_transmits_row rpi opened 0 hi allLow (by decide) (by decide) (by decide)
    (by decide) (by decide) (by decide) (by decide) (by decide) (by decide) (by decide)

/-- C1: on the sample driver opened with `Width` overridden to 20 (the package-level
`Width` is 16) the driver is active, row 0 is in range and the 19-byte text padded to 20
differs from the shadow buffer of row 0; yet `Display` takes the cutting branch of
line 266 and panics: no pin-state call is made, nothing reaches the controller, and the
shadow buffer of row 0 is not the padded text afterwards. -/
theorem Display_wide_row_not_transmitted :
    wide.active = true ∧ (0 : Int) < wide.Lines ∧ wide.Width = 20 ∧
    wide.lastLines.length = wide.Lines.toNat ∧
    goIndex wide.LinesAddr 0 = some 0x80 ∧
    goIndex wide.lastLines 0 ≠ some (padded wide.Width.toNat digits19) ∧
    (Display rpi wide 0 digits19).exit = Exit.panic "slice bounds out of range" ∧
    pinCalls (Display rpi wide 0 digits19).trace = 0 ∧
    busBytes (latched allLow (Display rpi wide 0 digits19).trace) = [] ∧
    goIndex (Display rpi wide 0 digits19).h.lastLines 0
      ≠ some (padded wide.Width.toNat digits19) := by
  decide

/-- C2: whatever the driver, the row and the text, a second `Display` of the same text on
the same row right after the first makes no call on the outside world (so no pin-state
call) and leaves the driver as the first call left it; it returns whenever the first
call returned. -/
theorem Display_twice_noop (k : Pkg) (h : GPIO4bit) (row : Int) (text : List Nat) :
    (Display k (Display k h row text).h row text).trace = [] ∧
    pinCalls (Display k (Display k h row text).h row text).trace = 0 ∧
    (Display k (Display k h row text).h row text).h = (Display k h row text).h ∧
    ((Display k h row text).exit = Exit.ret →
      (Display k (Display k h row text).h row text).exit = Exit.ret) := by
  have key : (Display k (Display k h row text).h row text).trace = [] ∧
      (Display k (Display k h row text).h row text).h = (Display k h row text).h ∧
      ((Display k h row text).exit = Exit.ret →
        (Display k (Display k h row text).h row text).exit = Exit.ret) := by
    by_cases hact : h.active = true
    swap
    · have h1 : Display k h row text = ⟨h, [], Exit.ret⟩ := by simp [Display, hact]
      simp [h1]
    by_cases hge : row ≥ h.Lines
    · have h1 : Display k h row text = ⟨h, [], Exit.ret⟩ := by simp [Display, hact, hge]
      simp [h1]
    cases hpad : padOrCut k h text with
    | error msg =>
      have h1 : Display k h row text = ⟨h, [], Exit.panic msg⟩ := by
        simp [Display, hact, hge, hpad]
      simp [h1]
    | ok t =>
      cases hlast : goIndex h.lastLines row with
      | none =>
        have h1 : Display k h row text = ⟨h, [], Exit.panic "index out of range"⟩ := by
          simp [Display, hact, hge, hpad, hlast]
        simp [h1]
      | some last =>
        by_cases heq : last = t
        · have h1 : Display k h row text = ⟨h, [], Exit.ret⟩ := by
            simp [Display, hact, hge, hpad, hlast, heq]
          simp [h1]
        · have hst : (Display k h row text).h
              = { h with lastLines := h.lastLines.set row.toNat t } := by
            unfold Display
            rw [if_neg (by simp [hact]), if_neg hge]
            simp only [hpad, hlast]
            rw [if_neg heq]
            split <;> rfl
          have h2 := Display_skips k { h with lastLines := h.lastLines.set row.toNat t }
            row text t hact (by simpa using hge) hpad (goIndex_set_same _ _ _ _ hlast)
          rw [hst, h2]
          simp
  exact ⟨key.1, by rw [key.1]; rfl, key.2.1, key.2.2⟩

theorem Display_twice_noop_witness :
    (Display rpi (Display rpi opened 0 hi).h 0 hi).trace = [] ∧
    pinCalls (Display rpi (Display rpi opened 0 hi).h 0 hi).trace = 0 ∧
    (Display rpi (Display rpi opened 0 hi).h 0 hi).h = (Display rpi opened 0 hi).h ∧
    ((Display rpi opened 0 hi).exit = Exit.ret →
      (Display rpi (Display rpi opened 0 hi).h 0 hi).exit = Exit.ret) :=
  Display_twice_noop rpi opened 0 hi

theorem Clear_keeps_state (k : Pkg) (h : GPIO4bit) : (Clear k h).h = h := by
  unfold Clear
  split <;> rfl

/-- C3: on the sample driver, `Display(0, "Hi")`, then `Clear()`, then `Display(0, "Hi")`
again: the first call transmits, `Clear` blanks the rows and leaves the shadow buffers
as they were, and the last call makes no call on the outside world at all, although the
row now shows spaces. -/
theorem Display_after_Clear_skipped :
    busBytes (latched allLow (Display rpi opened 0 hi).trace) ≠ [] ∧
    (Clear rpi (Display rpi opened 0 hi).h).h = (Display rpi opened 0 hi).h ∧
    busBytes (latched allLow (Clear rpi (Display rpi opened 0 hi).h).trace) ≠ [] ∧
    Display rpi (Clear rpi (Display rpi opened 0 hi).h).h 0 hi
      = ⟨(Display rpi opened 0 hi).h, [], Exit.ret⟩ := by
  decide

/-- C4: with `Width` overridden before `Open`, `Display` on row 0 panics instead of
padding or cutting: at `Width = 20` a 17-byte text is sliced past its end, at
`Width = 8` a 12-byte text gets a negative `Repeat` count (package-level `Width` is 16). -/
theorem Display_overridden_width_panics :
    wide.active = true ∧ wide.Width = 20 ∧
    Display rpi wide 0 (List.replicate 17 65)
      = ⟨wide, [], Exit.panic "slice bounds out of range"⟩ ∧
    narrow.active = true ∧ narrow.Width = 8 ∧
    Display rpi narrow 0 (List.replicate 12 65)
      = ⟨narrow, [], Exit.panic "strings: negative Repeat count"⟩ := by
  decide

theorem Display_row_past_end (k : Pkg) (h : GPIO4bit) (row : Int) (text : List Nat)
    (hrow : h.Lines ≤ row) : Display k h row text = ⟨h, [], Exit.ret⟩ := by
  unfold Display
  by_cases hact : h.active = true
  · simp [hact, hrow]
  · simp [hact]

/-- C5: on the sample driver `Display(-1, "Hi")` ends in the Go panic "index out of range"
(the bound check only tests `line >= h.Lines`), where rows 2 and 3 are silent no-ops. -/
theorem Display_negative_row_panics :
    opened.active = true ∧
    Display rpi opened (-1) hi = ⟨opened, [], Exit.panic "index out of range"⟩ ∧
    Display rpi opened 2 hi = ⟨opened, [], Exit.ret⟩ ∧
    Display rpi opened 3 hi = ⟨opened, [], Exit.ret⟩ := by
  decide

/-! ## Calls on an inactive driver -/

theorem Display_inactive (k : Pkg) (h : GPIO4bit) (row : Int) (text : List Nat)
    (hin : h.active = false) : Display k h row text = ⟨h, [], Exit.ret⟩ := by
  simp [Display, hin]

theorem displayFrom_inactive (k : Pkg) (h : GPIO4bit) (hin : h.active = false)
    (texts : List (List Nat)) (line : Nat) :
    displayFrom k h line texts = ⟨h, [], Exit.ret⟩ := by
  induction texts generalizing line with
  | nil => rfl
  | cons t ts ih => simp [displayFrom, Display_inactive k h line t hin, ih]

theorem DisplayLines_inactive (k : Pkg) (h : GPIO4bit) (msg : List Nat)
    (hin : h.active = false) : DisplayLines k h msg = ⟨h, [], Exit.ret⟩ :=
  displayFrom_inactive k h hin _ _

theorem Clear_inactive (k : Pkg) (h : GPIO4bit) (hin : h.active = false) :
    Clear k h = ⟨h, [], Exit.ret⟩ := by
  simp [Clear, hin]

theorem Close_inactive (k : Pkg) (h : GPIO4bit) (hin : h.active = false) :
    Close k h = ⟨h, [], Exit.ret⟩ := by
  simp [Close, hin]

theorem pinCalls_append (s t : List Event) : pinCalls (s ++ t) = pinCalls s + pinCalls t := by
  induction s with
  | nil => simp [pinCalls]
  | cons ev s ih => cases ev <;> simp [pinCalls, ih] <;> omega

theorem pinCalls_line (c : Prop) [Decidable c] (l : Line) (x : Nat) (t : List Event) :
    pinCalls ((if c then Event.high l x else Event.low l x) :: t) = pinCalls t + 1 := by
  by_cases hc : c <;> simp [hc, pinCalls]

theorem pinCalls_push4bits (k : Pkg) (h : GPIO4bit) (n : Nat) :
    pinCalls (push4bits k h n) = 6 := by
  unfold push4bits
  rw [pinCalls_line, pinCalls_line, pinCalls_line, pinCalls_line]
  simp [pinCalls]

theorem pinCalls_writeByte (k : Pkg) (h : GPIO4bit) (b : Nat) (m : Bool) :
    pinCalls (writeByte k h b m) = 13 := by
  unfold writeByte
  rw [pinCalls_append, pinCalls_append, pinCalls_append, pinCalls_push4bits,
    pinCalls_push4bits]
  cases m <;> simp [pinCalls]

theorem pinCalls_flatMap_writeByte (k : Pkg) (h : GPIO4bit) (m : Bool) (bs : List Nat) :
    pinCalls (bs.flatMap (fun b => writeByte k h b m)) = 13 * bs.length := by
  induction bs with
  | nil => rfl
  | cons b bs ih =>
    simp only [List.flatMap_cons, pinCalls_append, pinCalls_writeByte, ih, List.length_cons]
    omega

theorem SetChar_run (k : Pkg) (h : GPIO4bit) (pos : Nat) (glyph : List Nat)
    (hlen : glyph.length = 8) :
    SetChar k h pos glyph
      = ⟨h, writeByte k h ((0x40 + pos * 8) % 256) lcdCmd
            ++ glyph.flatMap (fun d => writeByte k h d lcdChr), Exit.ret⟩ := by
  simp [SetChar, hlen]

theorem SetChar_pinCalls (k : Pkg) (h : GPIO4bit) (pos : Nat) (glyph : List Nat)
    (hlen : glyph.length = 8) : pinCalls (SetChar k h pos glyph).trace = 117 := by
  rw [SetChar_run k h pos glyph hlen]
  show pinCalls (writeByte k h _ lcdCmd ++ _) = 117
  rw [pinCalls_append, pinCalls_writeByte, pinCalls_flatMap_writeByte, hlen]

theorem SetChar_bus (k : Pkg) (h : GPIO4bit) (pos : Nat) (glyph : List Nat) (p : Pins)
    (hlen : glyph.length = 8) :
    busBytes (latched p (SetChar k h pos glyph).trace)
      = (false, (0x40 + pos * 8) % 256) :: glyph.map (fun d => (true, d % 256)) := by
  have hflat := busBytes_flatMap k h lcdChr glyph
    (pinsAfter p (writeByte k h ((0x40 + pos * 8) % 256) lcdCmd)) []
  simp only [List.append_nil] at hflat
  rw [SetChar_run k h pos glyph hlen]
  show busBytes (latched p (writeByte k h _ lcdCmd ++ _)) = _
  rw [busBytes_writeByte, hflat, Nat.mod_mod]
  simp only [latched, busBytes, List.append_nil, lcdCmd, lcdChr]

/-- C6: `SetChar` has no activity check: on the never-opened sample driver, with a valid
eight-byte glyph, it makes 117 pin-state calls (nine bytes of thirteen calls each) and
the controller side sees nine bytes. The guarded methods are silent there. -/
theorem SetChar_inactive_drives_pins :
    (NewGPIO4bit rpi).active = false ∧
    pinCalls (SetChar rpi (NewGPIO4bit rpi) 0 blankGlyph).trace = 117 ∧
    (busBytes (latched allLow (SetChar rpi (NewGPIO4bit rpi) 0 blankGlyph).trace)).length = 9 ∧
    Display rpi (NewGPIO4bit rpi) 0 hi = ⟨NewGPIO4bit rpi, [], Exit.ret⟩ ∧
    DisplayLines rpi (NewGPIO4bit rpi) hi = ⟨NewGPIO4bit rpi, [], Exit.ret⟩ ∧
    Clear rpi (NewGPIO4bit rpi) = ⟨NewGPIO4bit rpi, [], Exit.ret⟩ ∧
    Close rpi (NewGPIO4bit rpi) = ⟨NewGPIO4bit rpi, [], Exit.ret⟩ := by
  refine ⟨by decide, SetChar_pinCalls rpi _ 0 blankGlyph (by decide), ?_, by decide,
    by decide, by decide, by decide⟩
  rw [SetChar_bus rpi _ 0 blankGlyph allLow (by decide)]
  decide

/-! ## `SetChar` -/

/-- C7 as stated fails: with an empty glyph `SetChar` returns no error value to its
caller, the call is cut short by a Go panic. -/
theorem SetChar_empty_glyph_panics :
    (SetChar rpi opened 0 []).exit = Exit.panic "invalid def - req 8 bytes" ∧
    ¬ ∃ e, (SetChar rpi opened 0 []).exit = Exit.err e := by
  refine ⟨by decide, ?_⟩
  rintro ⟨e, he⟩
  have hx : (SetChar rpi opened 0 []).exit = Exit.panic "invalid def - req 8 bytes" := by
    decide
  rw [hx] at he
  cases he

/-- C7 amended: for every glyph slot and every definition whose length is not 8,
`SetChar` ends in the panic "invalid def - req 8 bytes", makes no call on the outside
world (nothing is latched by the controller) and leaves the driver unchanged. -/
theorem SetChar_wrong_length_panics (k : Pkg) (h : GPIO4bit) (pos : Nat) (glyph : List Nat)
    (p : Pins) (hlen : glyph.length ≠ 8) :
    SetChar k h pos glyph = ⟨h, [], Exit.panic "invalid def - req 8 bytes"⟩ ∧
    latched p (SetChar k h pos glyph).trace = [] ∧
    pinCalls (SetChar k h pos glyph).trace = 0 := by
  have hrun : SetChar k h pos glyph = ⟨h, [], Exit.panic "invalid def - req 8 bytes"⟩ := by
    simp [SetChar, hlen]
  rw [hrun]
  exact ⟨rfl, rfl, rfl⟩

theorem SetChar_wrong_length_panics_witness :
    SetChar rpi opened 3 [1, 2, 3] = ⟨opened, [], Exit.panic "invalid def - req 8 bytes"⟩ ∧
    latched allLow (SetChar rpi opened 3 [1, 2, 3]).trace = [] ∧
    pinCalls (SetChar rpi opened 3 [1, 2, 3]).trace = 0 :=
  SetChar_wrong_length_panics rpi opened 3 [1, 2, 3] allLow (by decide)

/-- C8: for a glyph slot `pos` in 0..7 and a definition of exactly eight bytes, `SetChar`
returns, leaves the driver unchanged, and the controller receives the command byte
`0x40 + pos*8` (between 0x40 and 0x78, no wrap-around) followed by the eight definition
bytes as data bytes, in order. -/
theorem SetChar_uploads_glyph (k : Pkg) (h : GPIO4bit) (pos : Nat) (glyph : List Nat)
    (p : Pins) (hpos : pos ≤ 7) (hlen : glyph.length = 8) (hbytes : ∀ d ∈ glyph, d < 256) :
    (SetChar k h pos glyph).exit = Exit.ret ∧
    (SetChar k h pos glyph).h = h ∧
    busBytes (latched p (SetChar k h pos glyph).trace)
      = (false, 0x40 + pos * 8) :: glyph.map (fun d => (true, d)) ∧
    (busBytes (latched p (SetChar k h pos glyph).trace)).length = 9 ∧
    0x40 ≤ 0x40 + pos * 8 ∧ 0x40 + pos * 8 ≤ 0x78 := by
  have hrun := SetChar_run k h pos glyph hlen
  have hbus : busBytes (latched p (SetChar k h pos glyph).trace)
      = (false, 0x40 + pos * 8) :: glyph.map (fun d => (true, d)) := by
    rw [SetChar_bus k h pos glyph p hlen, Nat.mod_eq_of_lt (by omega)]
    simp only [List.cons.injEq, true_and]
    exact List.map_congr_left (fun d hd => by rw [Nat.mod_eq_of_lt (hbytes d hd)])
  refine ⟨by rw [hrun], by rw [hrun], hbus, ?_, by omega, by omega⟩
  rw [hbus]
  simp [hlen]

theorem SetChar_uploads_glyph_witness :
    (SetChar rpi opened 7 [1, 2, 3, 4, 5, 6, 7, 255]).exit = Exit.ret ∧
    (SetChar rpi opened 7 [1, 2, 3, 4, 5, 6, 7, 255]).h = opened ∧
    busBytes (latched allLow (SetChar rpi opened 7 [1, 2, 3, 4, 5, 6, 7, 255]).trace)
      = (false, 0x40 + 7 * 8) :: [1, 2, 3, 4, 5, 6, 7, 255].map (fun d => (true, d)) ∧
    (busBytes (latched allLow (SetChar rpi opened 7 [1, 2, 3, 4, 5, 6, 7, 255]).trace)).length
      = 9 ∧
    0x40 ≤ 0x40 + 7 * 8 ∧ 0x40 + 7 * 8 ≤ 0x78 :=
  SetChar_uploads_glyph rpi opened 7 [1, 2, 3, 4, 5, 6, 7, 255] allLow (by decide)
    (by decide) (by decide)

/-! ## `Open` -/

theorem Open_active (k : Pkg) (acquire : Option String) (h : GPIO4bit)
    (hact : h.active = true) : Open k acquire h = ⟨h, [], Exit.ret⟩ := by
  simp [Open, hact]

theorem Open_returned_active (k : Pkg) (acquire : Option String) (h : GPIO4bit)
    (hret : (Open k acquire h).exit = Exit.ret) : (Open k acquire h).h.active = true := by
  unfold Open at hret ⊢
  by_cases hact : h.active = true
  · simp [hact]
  · cases acquire with
    | some e => simp [hact] at hret
    | none =>
      cases hmk : makeStrings h.Lines with
      | error msg => simp [hact, hmk] at hret
      | ok ls => simp [hact, hmk]

theorem Open_twice (k : Pkg) (first second : Option String) (h : GPIO4bit)
    (hret : (Open k first h).exit = Exit.ret) :
    Open k second (Open k first h).h = ⟨(Open k first h).h, [], Exit.ret⟩ :=
  Open_active k second _ (Open_returned_active k first h hret)

theorem Open_default_ready (k : Pkg) (hlo : 0 ≤ k.Lines) (hhi : k.Lines ≤ 4) :
    (Open k none (NewGPIO4bit k)).exit = Exit.ret ∧
    (Open k none (NewGPIO4bit k)).h.active = true ∧
    (Open k none (NewGPIO4bit k)).h.lastLines.length
      = (Open k none (NewGPIO4bit k)).h.Lines.toNat ∧
    (Open k none (NewGPIO4bit k)).h.Lines
      ≤ (Open k none (NewGPIO4bit k)).h.LinesAddr.length ∧
    (Open k none (NewGPIO4bit k)).h.Width = k.Width := by
  have hmk : makeStrings k.Lines = .ok (List.replicate k.Lines.toNat []) := by
    simp [makeStrings, show ¬ k.Lines < 0 by omega]
  simp [Open, NewGPIO4bit, hmk, hhi]

/-- C9: on an active driver `Open` returns a nil error whatever `rpio.Open()` would
answer, and makes no call on the outside world (no `rpio.Open()`, no `initPin`, no
pin-state call, no sleep); the driver, shadow buffers included, is unchanged. -/
theorem Open_on_active_noop (k : Pkg) (acquire : Option String) (h : GPIO4bit)
    (hact : h.active = true) :
    Open k acquire h = ⟨h, [], Exit.ret⟩ ∧
    pinCalls (Open k acquire h).trace = 0 ∧
    pinBinds (Open k acquire h).trace = 0 ∧
    (Open k acquire h).h.lastLines = h.lastLines := by
  rw [Open_active k acquire h hact]
  exact ⟨rfl, rfl, rfl, rfl⟩

theorem Open_on_active_noop_witness :
    Open rpi none (Open rpi none (NewGPIO4bit rpi)).h
      = ⟨(Open rpi none (NewGPIO4bit rpi)).h, [], Exit.ret⟩ ∧
    pinCalls (Open rpi none (Open rpi none (NewGPIO4bit rpi)).h).trace = 0 ∧
    pinBinds (Open rpi none (Open rpi none (NewGPIO4bit rpi)).h).trace = 0 ∧
    (Open rpi none (Open rpi none (NewGPIO4bit rpi)).h).h.lastLines
      = (Open rpi none (NewGPIO4bit rpi)).h.lastLines :=
  Open_on_active_noop rpi none (Open rpi none (NewGPIO4bit rpi)).h (by decide)

/-- C10: when `rpio.Open()` answers an error `e` on an inactive driver, `Open` returns
`e`; its only call on the outside world is that failed `rpio.Open()` (no pin-state
call, no `initPin`), and the driver is exactly as before: shadow buffers not allocated,
activity flag false. -/
theorem Open_acquire_failure (k : Pkg) (e : String) (h : GPIO4bit)
    (hin : h.active = false) :
    Open k (some e) h = ⟨h, [Event.rpioOpen (some e)], Exit.err e⟩ ∧
    pinCalls (Open k (some e) h).trace = 0 ∧
    pinBinds (Open k (some e) h).trace = 0 ∧
    (Open k (some e) h).h.lastLines = h.lastLines ∧
    (Open k (some e) h).h.active = false := by
  have hrun : Open k (some e) h = ⟨h, [Event.rpioOpen (some e)], Exit.err e⟩ := by
    simp [Open, hin]
  rw [hrun]
  exact ⟨rfl, rfl, rfl, rfl, hin⟩

theorem Open_acquire_failure_witness :
    Open rpi (some "permission denied") (NewGPIO4bit rpi)
      = ⟨NewGPIO4bit rpi, [Event.rpioOpen (some "permission denied")],
          Exit.err "permission denied"⟩ ∧
    pinCalls (Open rpi (some "permission denied") (NewGPIO4bit rpi)).trace = 0 ∧
    pinBinds (Open rpi (some "permission denied") (NewGPIO4bit rpi)).trace = 0 ∧
    (Open rpi (some "permission denied") (NewGPIO4bit rpi)).h.lastLines
      = (NewGPIO4bit rpi).lastLines ∧
    (Open rpi (some "permission denied") (NewGPIO4bit rpi)).h.active = false :=
  Open_acquire_failure rpi "permission denied" (NewGPIO4bit rpi) (by decide)

/-! ## What `Display` leaves alone -/

theorem Display_shadow (k : Pkg) (h : GPIO4bit) (row : Int) (text : List Nat) :
    (Display k h row text).h = h ∨
    (0 ≤ row ∧ ∃ t, (Display k h row text).h
      = { h with lastLines := h.lastLines.set row.toNat t }) := by
  by_cases hact : h.active = true
  swap
  · left; simp [Display, hact]
  by_cases hge : row ≥ h.Lines
  · left; simp [Display, hact, hge]
  cases hpad : padOrCut k h text with
  | error msg => left; simp [Display, hact, hge, hpad]
  | ok t =>
    cases hlast : goIndex h.lastLines row with
    | none => left; simp [Display, hact, hge, hpad, hlast]
    | some last =>
      by_cases heq : last = t
      · left; simp [Display, hact, hge, hpad, hlast, heq]
      · right
        have hrow : 0 ≤ row := by
          by_contra hneg
          simp [goIndex, show row < 0 by omega] at hlast
        refine ⟨hrow, t, ?_⟩
        unfold Display
        rw [if_neg (by simp [hact]), if_neg hge]
        simp only [hpad, hlast]
        rw [if_neg heq]
        split <;> rfl

theorem Display_exit (k : Pkg) (h : GPIO4bit) (row : Int) (text : List Nat) (e : String) :
    (Display k h row text).exit ≠ Exit.err e := by
  have hw : ∀ (g : GPIO4bit) (t : List Nat) (n c : Nat),
      (writeText k g t c n).2 ≠ Exit.err e := by
    intro g t n
    induction n with
    | zero => intro c; simp [writeText]
    | succ n ih =>
      intro c
      rw [writeText]
      split
      · simp
      · exact ih _
  by_cases hact : h.active = true
  swap
  · simp [Display, hact]
  by_cases hge : row ≥ h.Lines
  · simp [Display, hact, hge]
  cases hpad : padOrCut k h text with
  | error msg => simp [Display, hact, hge, hpad]
  | ok t =>
    cases hlast : goIndex h.lastLines row with
    | none => simp [Display, hact, hge, hpad, hlast]
    | some last =>
      by_cases heq : last = t
      · simp [Display, hact, hge, hpad, hlast, heq]
      · cases haddr : goIndex h.LinesAddr row with
        | none => simp [Display, hact, hge, hpad, hlast, heq, haddr]
        | some addr =>
          simp only [Display, hact, hge, hpad, hlast, heq, haddr, Bool.not_true,
            Bool.false_eq_true, if_false]
          exact hw _ _ _ _

theorem Display_keeps_Lines (k : Pkg) (h : GPIO4bit) (row : Int) (text : List Nat) :
    (Display k h row text).h.Lines = h.Lines := by
  rcases Display_shadow k h row text with hs | ⟨-, t, hs⟩ <;> rw [hs]

theorem Display_keeps_active (k : Pkg) (h : GPIO4bit) (row : Int) (text : List Nat) :
    (Display k h row text).h.active = h.active := by
  rcases Display_shadow k h row text with hs | ⟨-, t, hs⟩ <;> rw [hs]

theorem Display_rest_unchanged (k : Pkg) (h : GPIO4bit) (r : Int) (text : List Nat) :
    (Display k h r text).h = { h with lastLines := (Display k h r text).h.lastLines } ∧
    (Display k h r text).h.Lines = h.Lines ∧
    (Display k h r text).h.LinesAddr = h.LinesAddr ∧
    (Display k h r text).h.Width = h.Width ∧
    (Display k h r text).h.active = h.active ∧
    (Display k h r text).h.lastLines.length = h.lastLines.length ∧
    ∀ j : Int, j ≠ r →
      goIndex (Display k h r text).h.lastLines j = goIndex h.lastLines j := by
  rcases Display_shadow k h r text with hs | ⟨hr, t, hs⟩
  · rw [hs]
    exact ⟨rfl, rfl, rfl, rfl, rfl, rfl, fun _ _ => rfl⟩
  · rw [hs]
    refine ⟨rfl, rfl, rfl, rfl, rfl, by simp, ?_⟩
    intro j hj
    unfold goIndex
    by_cases hneg : j < 0
    · simp [hneg]
    · have hne : r.toNat ≠ j.toNat := by omega
      simp [hneg, List.getElem?_set, hne]

/-- C20: whatever the driver, the row and the text, `Display(r, text)` leaves the
geometry (`Lines`, `LinesAddr`, `Width`), the configured and the bound pins and the
activity flag as they were, keeps the number of shadow buffers, and leaves the shadow
buffer of every row other than `r` as it was. -/
theorem Display_frame (k : Pkg) (h : GPIO4bit) (r : Int) (text : List Nat) :
    (Display k h r text).h = { h with lastLines := (Display k h r text).h.lastLines } ∧
    (Display k h r text).h.Lines = h.Lines ∧
    (Display k h r text).h.LinesAddr = h.LinesAddr ∧
    (Display k h r text).h.Width = h.Width ∧
    (Display k h r text).h.active = h.active ∧
    (Display k h r text).h.lastLines.length = h.lastLines.length ∧
    ∀ j : Int, j ≠ r →
      goIndex (Display k h r text).h.lastLines j = goIndex h.lastLines j :=
  Display_rest_unchanged k h r text

theorem Display_frame_witness :
    (Display rpi opened 0 hi).h
      = { opened with lastLines := (Display rpi opened 0 hi).h.lastLines } ∧
    (Display rpi opened 0 hi).h.Lines = opened.Lines ∧
    (Display rpi opened 0 hi).h.LinesAddr = opened.LinesAddr ∧
    (Display rpi opened 0 hi).h.Width = opened.Width ∧
    (Display rpi opened 0 hi).h.active = opened.active ∧
    (Display rpi opened 0 hi).h.lastLines.length = opened.lastLines.length ∧
    ∀ j : Int, j ≠ 0 →
      goIndex (Display rpi opened 0 hi).h.lastLines j = goIndex opened.lastLines j :=
  Display_frame rpi opened 0 hi

/-! ## The activity flag -/

theorem SetChar_keeps_state (k : Pkg) (h : GPIO4bit) (pos : Nat) (glyph : List Nat) :
    (SetChar k h pos glyph).h = h := by
  unfold SetChar
  split <;> rfl

theorem displayFrom_keeps_active (k : Pkg) (texts : List (List Nat)) (h : GPIO4bit)
    (line : Nat) : (displayFrom k h line texts).h.active = h.active := by
  induction texts generalizing h line with
  | nil => rfl
  | cons t ts ih =>
    rw [displayFrom]
    split
    · simp only [ih, Display_keeps_active]
    · simp only [Display_keeps_active]

theorem Open_active_flag (k : Pkg) (acquire : Option String) (h : GPIO4bit) :
    (Open k acquire h).h.active
      = (h.active || decide ((Open k acquire h).exit = Exit.ret)) := by
  unfold Open
  by_cases hact : h.active = true
  · simp [hact]
  · cases acquire with
    | some e => simp [hact]
    | none =>
      cases hmk : makeStrings h.Lines with
      | error msg => simp [hact, hmk]
      | ok ls => simp [hact, hmk]

theorem Close_clears_flag (k : Pkg) (h : GPIO4bit) : (Close k h).h.active = false := by
  unfold Close
  by_cases hact : h.active = true
  · simp [hact]
  · simp [hact]

theorem afterCalls_active (k : Pkg) (calls : List Call) (h : GPIO4bit) (b : Bool)
    (hb : h.active = b) : (afterCalls k h calls).active = openNotClosed k h b calls := by
  induction calls generalizing h b with
  | nil => simpa [afterCalls, openNotClosed] using hb
  | cons c cs ih =>
    cases c with
    | Open acquire =>
      simp only [afterCalls, openNotClosed, Call.run]
      apply ih
      rw [Open_active_flag, hb]
      by_cases hret : (Open k acquire h).exit = Exit.ret <;> simp [hret]
    | Close =>
      simp only [afterCalls, openNotClosed, Call.run]
      exact ih _ _ (Close_clears_flag k h)
    | Reset =>
      simp only [afterCalls, openNotClosed, Call.run]
      exact ih _ _ hb
    | Display line text =>
      simp only [afterCalls, openNotClosed, Call.run]
      exact ih _ _ (by rw [Display_keeps_active, hb])
    | DisplayLines msg =>
      simp only [afterCalls, openNotClosed, Call.run]
      exact ih _ _ (by rw [DisplayLines, displayFrom_keeps_active, hb])
    | Clear =>
      simp only [afterCalls, openNotClosed, Call.run]
      exact ih _ _ (by rw [Clear_keeps_state, hb])
    | SetChar pos glyph =>
      simp only [afterCalls, openNotClosed, Call.run]
      exact ih _ _ (by rw [SetChar_keeps_state, hb])

/-- C11: from a constructed (inactive) driver, after any sequence of `Open`, `Reset`,
`Display`, `DisplayLines`, `Clear`, `SetChar` and `Close` calls the activity flag is true
exactly when a successful `Open` has occurred with no `Close` after it. It is false
after `NewGPIO4bit` and after `Close`; `Open` sets it exactly when it returns a nil
error; `Reset`, `Display`, `DisplayLines`, `Clear` and `SetChar` never change it. -/
theorem active_flag_lifecycle (k : Pkg) (h0 : GPIO4bit) (calls : List Call)
    (hnew : h0.active = false) :
    (NewGPIO4bit k).active = false ∧
    (afterCalls k h0 calls).active = openNotClosed k h0 false calls ∧
    (∀ h acquire, (Open k acquire h).h.active
      = (h.active || decide ((Open k acquire h).exit = Exit.ret))) ∧
    (∀ h, (Close k h).h.active = false) ∧
    (∀ h, (Reset k h).h.active = h.active) ∧
    (∀ h row text, (Display k h row text).h.active = h.active) ∧
    (∀ h msg, (DisplayLines k h msg).h.active = h.active) ∧
    (∀ h, (Clear k h).h.active = h.active) ∧
    (∀ h pos glyph, (SetChar k h pos glyph).h.active = h.active) :=
  ⟨rfl, afterCalls_active k calls h0 false hnew, fun h acquire => Open_active_flag k acquire h,
    Close_clears_flag k,
    fun _ => rfl, Display_keeps_active k,
    fun h msg => displayFrom_keeps_active k _ h 0,
    fun h => by rw [Clear_keeps_state], fun h pos glyph => by rw [SetChar_keeps_state]⟩

theorem active_flag_lifecycle_witness :
    (NewGPIO4bit rpi).active = false ∧
    (afterCalls rpi (NewGPIO4bit rpi)
        [.Open (some "busy"), .Open none, .Display 0 hi, .Reset, .Close, .Clear]).active
      = openNotClosed rpi (NewGPIO4bit rpi) false
        [.Open (some "busy"), .Open none, .Display 0 hi, .Reset, .Close, .Clear] ∧
    (∀ h acquire, (Open rpi acquire h).h.active
      = (h.active || decide ((Open rpi acquire h).exit = Exit.ret))) ∧
    (∀ h, (Close rpi h).h.active = false) ∧
    (∀ h, (Reset rpi h).h.active = h.active) ∧
    (∀ h row text, (Display rpi h row text).h.active = h.active) ∧
    (∀ h msg, (DisplayLines rpi h msg).h.active = h.active) ∧
    (∀ h, (Clear rpi h).h.active = h.active) ∧
    (∀ h pos glyph, (SetChar rpi h pos glyph).h.active = h.active) :=
  active_flag_lifecycle rpi (NewGPIO4bit rpi)
    [.Open (some "busy"), .Open none, .Display 0 hi, .Reset, .Close, .Clear] (by decide)

/-! ## `DisplayLines` -/

theorem displayFrom_eq_callSeq (k : Pkg) (texts : List (List Nat)) (h : GPIO4bit)
    (line : Nat) : displayFrom k h line texts = callSeq k h (displayCalls line texts) := by
  induction texts generalizing h line with
  | nil => rfl
  | cons t ts ih =>
    rw [displayFrom, displayCalls, callSeq]
    simp only [Call.run]
    cases hx : (Display k h (line : Int) t).exit with
    | ret => simp only [ih]
    | err e => exact absurd hx (Display_exit k h _ t e)
    | panic msg => rfl

theorem callSeq_past_end (k : Pkg) (texts : List (List Nat)) (h : GPIO4bit) (line : Nat)
    (hline : h.Lines ≤ line) : callSeq k h (displayCalls line texts) = ⟨h, [], Exit.ret⟩ := by
  induction texts generalizing line with
  | nil => rfl
  | cons t ts ih =>
    have hno := Display_row_past_end k h (line : Int) t hline
    rw [displayCalls, callSeq]
    simp only [Call.run, hno, ih (line + 1) (by omega), List.append_nil]

theorem callSeq_first_rows (k : Pkg) (texts : List (List Nat)) (h : GPIO4bit) (line : Nat) :
    callSeq k h (displayCalls line texts)
      = callSeq k h (displayCalls line (texts.take (h.Lines.toNat - line))) := by
  induction texts generalizing h line with
  | nil => simp
  | cons t ts ih =>
    by_cases hline : h.Lines ≤ line
    · rw [callSeq_past_end k _ h line hline, show h.Lines.toNat - line = 0 by omega]
      rfl
    · obtain ⟨n, hn⟩ : ∃ n, h.Lines.toNat - line = n + 1 := ⟨h.Lines.toNat - line - 1, by omega⟩
      have hrest : (Display k h (line : Int) t).h.Lines.toNat - (line + 1) = n := by
        rw [Display_keeps_Lines]
        omega
      rw [hn, List.take_succ_cons, displayCalls, displayCalls, callSeq, callSeq]
      simp only [Call.run]
      rw [ih (Display k h (line : Int) t).h (line + 1), hrest]

theorem splitLines_ne_nil (msg : List Nat) : splitLines msg ≠ [] := by
  cases msg with
  | nil => simp [splitLines]
  | cons b rest =>
    rw [splitLines]
    split
    · simp
    · split <;> simp

theorem splitLines_joined (msg : List Nat) : List.intercalate [10] (splitLines msg) = msg := by
  induction msg with
  | nil => simp [splitLines, List.intercalate]
  | cons b rest ih =>
    rw [splitLines]
    by_cases hb : b = 10
    · rw [if_pos hb, hb]
      cases hs : splitLines rest with
      | nil => exact absurd hs (splitLines_ne_nil rest)
      | cons p ps =>
        rw [hs] at ih
        rw [← ih]
        simp [List.intercalate, List.intersperse]
    · rw [if_neg hb]
      cases hs : splitLines rest with
      | nil => exact absurd hs (splitLines_ne_nil rest)
      | cons p ps =>
        rw [hs] at ih
        rw [← ih]
        cases ps <;> simp [List.intercalate, List.intersperse]

theorem splitLines_no_newline (msg : List Nat) : ∀ piece ∈ splitLines msg, 10 ∉ piece := by
  induction msg with
  | nil => simp [splitLines]
  | cons b rest ih =>
    rw [splitLines]
    by_cases hb : b = 10
    · rw [if_pos hb]
      intro piece hp
      rcases List.mem_cons.1 hp with hp | hp
      · simp [hp]
      · exact ih piece hp
    · rw [if_neg hb]
      cases hs : splitLines rest with
      | nil => exact absurd hs (splitLines_ne_nil rest)
      | cons p ps =>
        rw [hs] at ih
        intro piece hp
        rcases List.mem_cons.1 hp with hp | hp
        · rw [hp]
          intro hmem
          rcases List.mem_cons.1 hmem with hm | hm
          · exact hb hm.symm
          · exact ih p (List.mem_cons_self _ _) hm
        · exact ih piece (List.mem_cons_of_mem _ hp)

/-- C17: for every driver and message, `DisplayLines(msg)` leaves the state, makes the
outside calls and ends the way a client does that calls `Display(0, line_0)`,
`Display(1, line_1)`, ... in order, where the `line_i` are the pieces of `msg` between
line feeds (joined back with line feeds they give `msg`, and none contains a line feed).
A `Display` on a row at or past `Lines` does nothing, so the same holds with only the
first `Lines` pieces. -/
theorem DisplayLines_is_Display_per_line (k : Pkg) (h : GPIO4bit) (msg : List Nat) :
    DisplayLines k h msg = callSeq k h (displayCalls 0 (splitLines msg)) ∧
    DisplayLines k h msg
      = callSeq k h (displayCalls 0 ((splitLines msg).take h.Lines.toNat)) ∧
    List.intercalate [10] (splitLines msg) = msg ∧
    (∀ piece ∈ splitLines msg, 10 ∉ piece) ∧
    (∀ (i : Int) (piece : List Nat), h.Lines ≤ i →
      Display k h i piece = ⟨h, [], Exit.ret⟩) := by
  have hseq : DisplayLines k h msg = callSeq k h (displayCalls 0 (splitLines msg)) :=
    displayFrom_eq_callSeq k _ h 0
  refine ⟨hseq, ?_, splitLines_joined msg, splitLines_no_newline msg,
    fun i piece hi => Display_row_past_end k h i piece hi⟩
  rw [hseq, callSeq_first_rows k (splitLines msg) h 0]
  simp

theorem DisplayLines_is_Display_per_line_witness :
    DisplayLines rpi opened [65, 10, 66, 10, 67]
      = callSeq rpi opened (displayCalls 0 (splitLines [65, 10, 66, 10, 67])) ∧
    DisplayLines rpi opened [65, 10, 66, 10, 67]
      = callSeq rpi opened
          (displayCalls 0 ((splitLines [65, 10, 66, 10, 67]).take opened.Lines.toNat)) ∧
    List.intercalate [10] (splitLines [65, 10, 66, 10, 67]) = [65, 10, 66, 10, 67] ∧
    (∀ piece ∈ splitLines [65, 10, 66, 10, 67], 10 ∉ piece) ∧
    (∀ (i : Int) (piece : List Nat), opened.Lines ≤ i →
      Display rpi opened i piece = ⟨opened, [], Exit.ret⟩) :=
  DisplayLines_is_Display_per_line rpi opened [65, 10, 66, 10, 67]

/-! ## Pin level: `push4bits` and `writeByte` -/

theorem test_eq_testBit (n i : Nat) : decide (n &&& 2 ^ i = 2 ^ i) = n.testBit i := by
  rw [Nat.testBit_to_div_mod]
  exact decide_eq_decide.2 (land_two_pow_eq_iff n i)

theorem pinActions_append (s t : List Event) :
    pinActions (s ++ t) = pinActions s ++ pinActions t := by
  induction s with
  | nil => rfl
  | cons ev s ih => cases ev <;> simp [pinActions, ih]

theorem pinActions_line (c : Prop) [Decidable c] (l : Line) (x : Nat) (t : List Event) :
    pinActions ((if c then Event.high l x else Event.low l x) :: t)
      = (l, decide c) :: pinActions t := by
  by_cases hc : c <;> simp [hc, pinActions]

theorem pinActions_push4bits (k : Pkg) (h : GPIO4bit) (n : Nat) :
    pinActions (push4bits k h n) = strobe n := by
  have h0 := test_eq_testBit n 0
  have h1 := test_eq_testBit n 1
  have h2 := test_eq_testBit n 2
  have h3 := test_eq_testBit n 3
  norm_num at h0 h1 h2 h3
  unfold push4bits strobe
  rw [pinActions_line, pinActions_line, pinActions_line, pinActions_line]
  simp [pinActions, h0, h1, h2, h3]

theorem strobe_mod (n : Nat) : strobe (n % 16) = strobe n := by
  have hbit : ∀ i, i < 4 → (n % 16).testBit i = n.testBit i := by
    intro i hi
    have hmod : (n % 2 ^ 4).testBit i = (decide (i < 4) && n.testBit i) :=
      Nat.testBit_mod_two_pow n 4 i
    rw [decide_eq_true hi, Bool.true_and] at hmod
    exact hmod
  unfold strobe
  rw [hbit 0 (by decide), hbit 1 (by decide), hbit 2 (by decide), hbit 3 (by decide)]

theorem pinsAfter_push4bits_e (k : Pkg) (h : GPIO4bit) (p : Pins) (n : Nat) :
    (pinsAfter p (push4bits k h n)).e = false := by
  unfold push4bits
  rw [pinsAfter_line, pinsAfter_line, pinsAfter_line, pinsAfter_line]
  simp [pinsAfter, Pins.drive]

theorem pinsAfter_writeByte_e (k : Pkg) (h : GPIO4bit) (p : Pins) (b : Nat) (m : Bool) :
    (pinsAfter p (writeByte k h b m)).e = false := by
  unfold writeByte
  rw [pinsAfter_append, pinsAfter_append, pinsAfter_append]
  simp only [pinsAfter]
  exact pinsAfter_push4bits_e k h _ b

/-- C18: for every byte `b` and mode flag, the pin-state calls of `writeByte(b, mode)`
are, in order: register-select driven to `mode` (high for character mode), then for the
nibble `b >> 4` and after it for the nibble `b & 0x0F` the data lines D4..D7 driven to
bits 0..3 of the nibble, E raised, E lowered. The controller latches `b >> 4` then
`b & 0x0F`, both with register-select at `mode`, `16 * first + second = b`, E is left
low, and `push4bits` reads only the low four bits of its argument. -/
theorem writeByte_protocol (k : Pkg) (h : GPIO4bit) (p : Pins) (b : Nat) (m : Bool)
    (hb : b < 256) :
    pinActions (writeByte k h b m)
      = (Line.RS, m) :: (strobe (b >>> 4) ++ strobe (b &&& 0x0F)) ∧
    latched p (writeByte k h b m) = [(m, b >>> 4), (m, b &&& 0x0F)] ∧
    16 * (b >>> 4) + (b &&& 0x0F) = b ∧
    (pinsAfter p (writeByte k h b m)).e = false ∧
    (∀ n, pinActions (push4bits k h n) = pinActions (push4bits k h (n % 16))) ∧
    (∀ n q, latched q (push4bits k h n) = [(q.rs, n % 16)]) := by
  have hlow : b &&& 0x0F = b % 16 := Nat.and_pow_two_sub_one_eq_mod b 4
  have hhigh : (b >>> 4) % 16 = b >>> 4 := by
    rw [Nat.shiftRight_eq_div_pow]
    omega
  refine ⟨?_, ?_, ?_, pinsAfter_writeByte_e k h p b m, ?_, fun n q => latched_push4bits k h q n⟩
  · unfold writeByte
    rw [pinActions_append, pinActions_append, pinActions_append, pinActions_push4bits,
      pinActions_push4bits, hlow, strobe_mod]
    cases m <;> simp [pinActions]
  · rw [latched_writeByte, hhigh, hlow]
  · rw [hlow, Nat.shiftRight_eq_div_pow]
    omega
  · intro n
    rw [pinActions_push4bits, pinActions_push4bits, strobe_mod]

theorem writeByte_protocol_witness :
    pinActions (writeByte rpi opened 0xA5 true)
      = (Line.RS, true) :: (strobe (0xA5 >>> 4) ++ strobe (0xA5 &&& 0x0F)) ∧
    latched allLow (writeByte rpi opened 0xA5 true)
      = [(true, 0xA5 >>> 4), (true, 0xA5 &&& 0x0F)] ∧
    16 * (0xA5 >>> 4) + (0xA5 &&& 0x0F) = 0xA5 ∧
    (pinsAfter allLow (writeByte rpi opened 0xA5 true)).e = false ∧
    (∀ n, pinActions (push4bits rpi opened n) = pinActions (push4bits rpi opened (n % 16))) ∧
    (∀ n q, latched q (push4bits rpi opened n) = [(q.rs, n % 16)]) :=
  writeByte_protocol rpi opened allLow 0xA5 true (by decide)

/-! ## The initialization sequence -/

theorem latchedSettle_data_line (p : Pins) (c : Prop) [Decidable c] (l : Line) (x : Nat)
    (hl : l ≠ Line.E) (t : List Event) :
    latchedSettle p ((if c then Event.high l x else Event.low l x) :: t)
      = latchedSettle (p.drive l (decide c)) t := by
  by_cases hc : c <;> simp [hc, latchedSettle, hl]

theorem settle_data_line (c : Prop) [Decidable c] (l : Line) (x : Nat)
    (hl : l ≠ Line.E) (t : List Event) :
    settle ((if c then Event.high l x else Event.low l x) :: t) = settle t := by
  by_cases hc : c <;> simp [hc, settle, hl]

theorem settle_push4bits (k : Pkg) (h : GPIO4bit) (n : Nat) (t : List Event) :
    settle (push4bits k h n ++ t) = k.ePulse := by
  unfold push4bits
  simp only [List.cons_append, List.nil_append]
  rw [settle_data_line _ _ _ (by decide), settle_data_line _ _ _ (by decide),
    settle_data_line _ _ _ (by decide), settle_data_line _ _ _ (by decide)]
  simp [settle]

theorem latchedSettle_push4bits (k : Pkg) (h : GPIO4bit) (p : Pins) (n : Nat)
    (t : List Event) :
    latchedSettle p (push4bits k h n ++ t)
      = (p.rs, n % 16, k.ePulse + settle t)
        :: latchedSettle (pinsAfter p (push4bits k h n)) t := by
  unfold push4bits
  simp only [List.cons_append, List.nil_append]
  rw [latchedSettle_data_line _ _ _ _ (by decide), latchedSettle_data_line _ _ _ _ (by decide),
    latchedSettle_data_line _ _ _ _ (by decide), latchedSettle_data_line _ _ _ _ (by decide),
    pinsAfter_line, pinsAfter_line, pinsAfter_line, pinsAfter_line]
  simp only [latchedSettle, settle, pinsAfter, Pins.drive, Pins.nibble, and_self, if_true,
    List.cons.injEq, Prod.mk.injEq, true_and, and_true]
  exact nibble_of_tests n

theorem latchedSettle_write4Bits (k : Pkg) (h : GPIO4bit) (p : Pins) (n : Nat) (m : Bool)
    (t : List Event) :
    latchedSettle p (write4Bits k h n m ++ t)
      = (m, n % 16, k.ePulse + (k.eDelay + settle t))
        :: latchedSettle (pinsAfter p (write4Bits k h n m)) t := by
  unfold write4Bits
  simp only [List.append_assoc, List.singleton_append, List.cons_append, List.nil_append]
  cases m <;>
    simp [latchedSettle, latchedSettle_push4bits, pinsAfter, pinsAfter_append, settle,
      Pins.drive, pinsAfter_push4bits_rs]

theorem latchedSettle_writeByte (k : Pkg) (h : GPIO4bit) (p : Pins) (b : Nat) (m : Bool)
    (t : List Event) :
    latchedSettle p (writeByte k h b m ++ t)
      = (m, (b >>> 4) % 16, k.ePulse + k.ePulse)
        :: (m, b % 16, k.ePulse + (k.eDelay + settle t))
        :: latchedSettle (pinsAfter p (writeByte k h b m)) t := by
  unfold writeByte
  simp only [List.append_assoc, List.singleton_append, List.cons_append, List.nil_append]
  cases m <;>
    simp [latchedSettle, latchedSettle_push4bits, pinsAfter, pinsAfter_append, settle,
      settle_push4bits, Pins.drive, pinsAfter_push4bits_rs]

theorem settle_write4Bits (k : Pkg) (h : GPIO4bit) (n : Nat) (m : Bool) (t : List Event) :
    settle (write4Bits k h n m ++ t) = k.ePulse := by
  unfold write4Bits
  simp only [List.append_assoc, List.singleton_append, List.cons_append, List.nil_append]
  cases m <;> simp [settle, settle_push4bits]

theorem settle_writeByte (k : Pkg) (h : GPIO4bit) (b : Nat) (m : Bool) (t : List Event) :
    settle (writeByte k h b m ++ t) = k.ePulse := by
  unfold writeByte
  simp only [List.append_assoc, List.singleton_append, List.cons_append, List.nil_append]
  cases m <;> simp [settle, settle_push4bits]


theorem settle_sleep (d : Nat) (t : List Event) :
    settle (Event.sleep d :: t) = d + settle t := rfl

theorem latchedSettle_sleep (p : Pins) (d : Nat) (t : List Event) :
    latchedSettle p (Event.sleep d :: t) = latchedSettle p t := rfl

theorem latchedSettle_reset (k : Pkg) (h : GPIO4bit) (p : Pins) :
    latchedSettle p (reset k h)
      = [ (false, 0x3, k.ePulse + (k.eDelay + (5 * millisecond + k.ePulse))),
          (false, 0x3, k.ePulse + (k.eDelay + (240 * microsecond + k.ePulse))),
          (false, 0x3, k.ePulse + (k.eDelay + (240 * microsecond + k.ePulse))),
          (false, 0x2, k.ePulse + (k.eDelay + (240 * microsecond + k.ePulse))),
          (false, 0x2, k.ePulse + k.ePulse), (false, 0x8, k.ePulse + (k.eDelay + k.ePulse)),
          (false, 0x0, k.ePulse + k.ePulse), (false, 0xC, k.ePulse + (k.eDelay + k.ePulse)),
          (false, 0x0, k.ePulse + k.ePulse), (false, 0x6, k.ePulse + (k.eDelay + k.ePulse)),
          (false, 0x0, k.ePulse + k.ePulse),
          (false, 0x1, k.ePulse + (k.eDelay + (5 * millisecond + 0))) ] := by
  unfold reset
  simp only [List.append_assoc, List.singleton_append, List.cons_append, List.nil_append]
  rw [latchedSettle_write4Bits, settle_sleep, settle_write4Bits, latchedSettle_sleep,
    latchedSettle_write4Bits, settle_sleep, settle_write4Bits, latchedSettle_sleep,
    latchedSettle_write4Bits, settle_sleep, settle_write4Bits, latchedSettle_sleep,
    latchedSettle_write4Bits, settle_sleep, settle_writeByte, latchedSettle_sleep,
    latchedSettle_writeByte, settle_writeByte,
    latchedSettle_writeByte, settle_writeByte,
    latchedSettle_writeByte, settle_writeByte,
    latchedSettle_writeByte, settle_sleep, latchedSettle_sleep]
  rfl

theorem latched_of_latchedSettle (t : List Event) (p : Pins) :
    latched p t = (latchedSettle p t).map (fun x => (x.1, x.2.1)) := by
  induction t generalizing p with
  | nil => rfl
  | cons ev t ih =>
    cases ev with
    | low l x =>
      by_cases hl : l = Line.E ∧ p.e = true
      · simp [latched, latchedSettle, hl, ih]
      · simp [latched, latchedSettle, hl, ih]
    | high l x => simpa [latched, latchedSettle] using ih _
    | sleep d => simpa [latched, latchedSettle] using ih _
    | rpioOpen e => simpa [latched, latchedSettle] using ih _
    | rpioClose => simpa [latched, latchedSettle] using ih _
    | initPin n => simpa [latched, latchedSettle] using ih _

theorem Open_runs_reset (k : Pkg) (h : GPIO4bit) (hin : h.active = false)
    (hlines : 0 ≤ h.Lines) :
    (Open k none h).exit = Exit.ret ∧
    ∃ g, (Open k none h).trace
      = [ Event.rpioOpen none, Event.initPin h.RSPin, Event.initPin h.EPin,
          Event.initPin h.D4Pin, Event.initPin h.D5Pin, Event.initPin h.D6Pin,
          Event.initPin h.D7Pin ] ++ reset k g := by
  have hmk : makeStrings h.Lines = .ok (List.replicate h.Lines.toNat []) := by
    simp [makeStrings, show ¬ h.Lines < 0 by omega]
  unfold Open
  rw [if_neg (by simp [hin])]
  simp only [hmk]
  exact ⟨trivial, _, rfl⟩

/-- C12: the initialization sequence, as `Reset` runs it and as a successful `Open` runs
it, makes the controller latch, all with register-select low and in this order, the
nibble 0x3 three times, the nibble 0x2, then the nibble pairs of the bytes 0x28, 0x0C,
0x06, 0x01, and nothing else. The time slept after each latch before E is next raised
is at least 5 ms after the first 0x3, at least 240 microseconds after the second and
third 0x3 and after the 0x2, and at least 5 ms after the last nibble of 0x01. -/
theorem reset_sequence (k : Pkg) (h : GPIO4bit) (p : Pins) :
    (Reset k h).exit = Exit.ret ∧
    latched p (Reset k h).trace
      = [ (false, 0x3), (false, 0x3), (false, 0x3), (false, 0x2),
          (false, 0x2), (false, 0x8), (false, 0x0), (false, 0xC),
          (false, 0x0), (false, 0x6), (false, 0x0), (false, 0x1) ] ∧
    busBytes ((latched p (Reset k h).trace).drop 4)
      = [ (false, 0x28), (false, 0x0C), (false, 0x06), (false, 0x01) ] ∧
    List.Forall₂ (fun slept floor => floor ≤ slept)
      ((latchedSettle p (Reset k h).trace).map (fun x => x.2.2))
      [ 5 * millisecond, 240 * microsecond, 240 * microsecond, 240 * microsecond,
        0, 0, 0, 0, 0, 0, 0, 5 * millisecond ] ∧
    (h.active = false → 0 ≤ h.Lines →
      (Open k none h).exit = Exit.ret ∧
      latchedSettle p (Open k none h).trace = latchedSettle p (Reset k h).trace) := by
  have hseq : ∀ g, latchedSettle p (Reset k g).trace = _ := fun g => latchedSettle_reset k g p
  refine ⟨rfl, ?_, ?_, ?_, ?_⟩
  · rw [latched_of_latchedSettle, hseq]
    rfl
  · rw [latched_of_latchedSettle, hseq]
    rfl
  · rw [hseq]
    simp only [List.map_cons, List.map_nil, List.forall₂_cons, List.Forall₂.nil, and_true,
      Nat.zero_le, true_and]
    omega
  · intro hin hlines
    obtain ⟨hret, g, hg⟩ := Open_runs_reset k h hin hlines
    refine ⟨hret, ?_⟩
    rw [hg, hseq h]
    exact hseq g

theorem reset_sequence_witness :
    (Reset rpi (NewGPIO4bit rpi)).exit = Exit.ret ∧
    latched allLow (Reset rpi (NewGPIO4bit rpi)).trace
      = [ (false, 0x3), (false, 0x3), (false, 0x3), (false, 0x2),
          (false, 0x2), (false, 0x8), (false, 0x0), (false, 0xC),
          (false, 0x0), (false, 0x6), (false, 0x0), (false, 0x1) ] ∧
    busBytes ((latched allLow (Reset rpi (NewGPIO4bit rpi)).trace).drop 4)
      = [ (false, 0x28), (false, 0x0C), (false, 0x06), (false, 0x01) ] ∧
    List.Forall₂ (fun slept floor => floor ≤ slept)
      ((latchedSettle allLow (Reset rpi (NewGPIO4bit rpi)).trace).map (fun x => x.2.2))
      [ 5 * millisecond, 240 * microsecond, 240 * microsecond, 240 * microsecond,
        0, 0, 0, 0, 0, 0, 0, 5 * millisecond ] ∧
    ((NewGPIO4bit rpi).active = false → 0 ≤ (NewGPIO4bit rpi).Lines →
      (Open rpi none (NewGPIO4bit rpi)).exit = Exit.ret ∧
      latchedSettle allLow (Open rpi none (NewGPIO4bit rpi)).trace
        = latchedSettle allLow (Reset rpi (NewGPIO4bit rpi)).trace) :=
  reset_sequence rpi (NewGPIO4bit rpi) allLow

/-! ## `Clear` and `Close` -/

theorem blanks_eq (k : Pkg) (h : GPIO4bit) :
    blanks k h = (List.replicate k.Width.toNat 32).flatMap (fun b => writeByte k h b lcdChr) := by
  unfold blanks
  generalize k.Width.toNat = n
  induction n with
  | zero => rfl
  | succ n ih =>
    rw [List.range_succ, List.flatMap_append, ih, List.replicate_succ', List.flatMap_append]
    simp

theorem pinsAfter_flatMap_e (k : Pkg) (h : GPIO4bit) (m : Bool) (bs : List Nat) (p : Pins)
    (he : p.e = false) :
    (pinsAfter p (bs.flatMap (fun b => writeByte k h b m))).e = false := by
  induction bs generalizing p with
  | nil => simpa [pinsAfter] using he
  | cons b bs ih =>
    rw [List.flatMap_cons, pinsAfter_append]
    exact ih _ (pinsAfter_writeByte_e k h p b m)

theorem busBytes_row (k : Pkg) (h : GPIO4bit) (a : Nat) (p : Pins) (t : List Event) :
    busBytes (latched p (writeByte k h a lcdCmd ++ (blanks k h ++ t)))
      = blankRow (a % 256) k.Width.toNat
        ++ busBytes (latched (pinsAfter p (writeByte k h a lcdCmd ++ blanks k h)) t) := by
  rw [busBytes_writeByte, blanks_eq, busBytes_flatMap, pinsAfter_append]
  simp [blankRow, lcdCmd, lcdChr]

theorem pinsAfter_row_e (k : Pkg) (h : GPIO4bit) (a : Nat) (p : Pins) :
    (pinsAfter p (writeByte k h a lcdCmd ++ blanks k h)).e = false := by
  rw [pinsAfter_append, blanks_eq]
  exact pinsAfter_flatMap_e k h lcdChr _ _ (pinsAfter_writeByte_e k h p a lcdCmd)

theorem sweep_bus (k : Pkg) (h : GPIO4bit) (p : Pins) (t : List Event) :
    ∃ q : Pins, q.e = false ∧
      busBytes (latched p (sweep k h ++ t)) = packageSweep k ++ busBytes (latched q t) := by
  unfold sweep packageSweep
  simp only [List.append_assoc]
  rw [busBytes_row, busBytes_row, busBytes_row, busBytes_row]
  exact ⟨_, pinsAfter_row_e k h _ _, rfl⟩

theorem Clear_bus (k : Pkg) (h : GPIO4bit) (p : Pins) (hact : h.active = true) :
    busBytes (latched p (Clear k h).trace) = packageSweep k := by
  have hrun : (Clear k h).trace = sweep k h ++ [] := by simp [Clear, hact]
  obtain ⟨q, -, hq⟩ := sweep_bus k h p []
  rw [hrun, hq]
  simp [latched, busBytes]

theorem Close_trace (k : Pkg) (h : GPIO4bit) (hact : h.active = true) :
    (Close k h).trace
      = sweep k h ++ (writeByte k h 0x01 lcdCmd ++ (Event.sleep (5 * millisecond)
          :: (writeByte k h 0x0C lcdCmd
            ++ [ Event.low Line.RS h.lcdRS, Event.low Line.E h.lcdE,
                 Event.low Line.D4 h.lcdD4, Event.low Line.D5 h.lcdD5,
                 Event.low Line.D6 h.lcdD6, Event.low Line.D7 h.lcdD7,
                 Event.rpioClose ]))) := by
  simp [Close, hact]

theorem Close_bus (k : Pkg) (h : GPIO4bit) (p : Pins) (hact : h.active = true) :
    busBytes (latched p (Close k h).trace) = packageSweep k ++ [(false, 0x01), (false, 0x0C)] := by
  obtain ⟨q, -, hq⟩ := sweep_bus k h p (writeByte k h 0x01 lcdCmd
    ++ (Event.sleep (5 * millisecond) :: (writeByte k h 0x0C lcdCmd
      ++ [ Event.low Line.RS h.lcdRS, Event.low Line.E h.lcdE,
           Event.low Line.D4 h.lcdD4, Event.low Line.D5 h.lcdD5,
           Event.low Line.D6 h.lcdD6, Event.low Line.D7 h.lcdD7, Event.rpioClose ])))
  rw [Close_trace k h hact, hq, busBytes_writeByte]
  have hskip : ∀ (r : Pins) (d : Nat) (t : List Event),
      latched r (Event.sleep d :: t) = latched r t := fun _ _ _ => rfl
  rw [hskip, busBytes_writeByte]
  have he := pinsAfter_writeByte_e k h
    (pinsAfter q (writeByte k h 0x01 lcdCmd)) 0x0C lcdCmd
  simp [latched, busBytes, Pins.drive, he, lcdCmd]

theorem pinsAfter_all_low (q : Pins) (a b c d e f : Nat) :
    pinsAfter q [ Event.low Line.RS a, Event.low Line.E b, Event.low Line.D4 c,
      Event.low Line.D5 d, Event.low Line.D6 e, Event.low Line.D7 f, Event.rpioClose ]
      = allLow := by
  simp [pinsAfter, Pins.drive, allLow]

/-- C13: with the geometry set by the caller (two rows at 0x00 and 0x40, twenty wide),
`Clear` still sends the four package-level rows 0x80, 0xC0, 0x94, 0xD4 with sixteen
spaces each, where the configured geometry asks for rows 0x00 and 0x40 with twenty
spaces each. -/
theorem Clear_ignores_configured_geometry :
    custom.active = true ∧ custom.Lines = 2 ∧ custom.LinesAddr = [0x00, 0x40] ∧
    custom.Width = 20 ∧
    busBytes (latched allLow (Clear rpi custom).trace)
      = blankRow 0x80 16 ++ blankRow 0xC0 16 ++ blankRow 0x94 16 ++ blankRow 0xD4 16 ∧
    clearSpec custom = blankRow 0x00 20 ++ blankRow 0x40 20 ∧
    busBytes (latched allLow (Clear rpi custom).trace) ≠ clearSpec custom := by
  have hbus := Clear_bus rpi custom allLow (by decide)
  refine ⟨by decide, by decide, by decide, by decide, ?_, by decide, ?_⟩
  · rw [hbus]
    decide
  · rw [hbus]
    decide

/-- C14: on an active driver `Close` returns with the activity flag false and nothing
else changed. `Clear` makes the controller receive, for each of the four package-level
row addresses in order, the address as a command byte followed by package-level `Width`
spaces as data bytes; `Close` makes it receive exactly those bytes, then the commands
0x01 and 0x0C (a display-control command, pattern 00001xxx). The trace of `Close` starts
with the trace of `Clear` and ends with RS, E, D4, D5, D6, D7 driven low in that order
followed by `rpio.Close()`, leaving all six lines low. -/
theorem Close_sequence (k : Pkg) (h : GPIO4bit) (p : Pins) (hact : h.active = true) :
    (Close k h).exit = Exit.ret ∧
    (Close k h).h = { h with active := false } ∧
    (Clear k h).trace <+: (Close k h).trace ∧
    busBytes (latched p (Clear k h).trace)
      = ((false, k.lcdLine1 % 256) :: List.replicate k.Width.toNat (true, 32))
        ++ ((false, k.lcdLine2 % 256) :: List.replicate k.Width.toNat (true, 32))
        ++ ((false, k.lcdLine3 % 256) :: List.replicate k.Width.toNat (true, 32))
        ++ ((false, k.lcdLine4 % 256) :: List.replicate k.Width.toNat (true, 32)) ∧
    busBytes (latched p (Close k h).trace)
      = ((false, k.lcdLine1 % 256) :: List.replicate k.Width.toNat (true, 32))
        ++ ((false, k.lcdLine2 % 256) :: List.replicate k.Width.toNat (true, 32))
        ++ ((false, k.lcdLine3 % 256) :: List.replicate k.Width.toNat (true, 32))
        ++ ((false, k.lcdLine4 % 256) :: List.replicate k.Width.toNat (true, 32))
        ++ [(false, 0x01), (false, 0x0C)] ∧
    busBytes (latched p (Close k h).trace)
      = busBytes (latched p (Clear k h).trace) ++ [(false, 0x01), (false, 0x0C)] ∧
    0x0C >>> 3 = 1 ∧
    (∃ body, (Close k h).trace
      = body ++ [ Event.low Line.RS h.lcdRS, Event.low Line.E h.lcdE,
                  Event.low Line.D4 h.lcdD4, Event.low Line.D5 h.lcdD5,
                  Event.low Line.D6 h.lcdD6, Event.low Line.D7 h.lcdD7,
                  Event.rpioClose ]) ∧
    pinsAfter p (Close k h).trace = allLow := by
  have htrace := Close_trace k h hact
  have hclear : (Clear k h).trace = sweep k h := by simp [Clear, hact]
  refine ⟨by simp [Close, hact], by simp [Close, hact], ?_,
    by rw [Clear_bus k h p hact]; rfl, by rw [Close_bus k h p hact]; rfl, ?_, by decide,
    ?_, ?_⟩
  · rw [htrace, hclear]
    exact List.prefix_append _ _
  · rw [Close_bus k h p hact, Clear_bus k h p hact]
  · refine ⟨sweep k h ++ (writeByte k h 0x01 lcdCmd ++ (Event.sleep (5 * millisecond)
      :: writeByte k h 0x0C lcdCmd)), ?_⟩
    rw [htrace]
    simp
  · rw [htrace, ← List.append_assoc, ← List.cons_append, ← List.append_assoc, pinsAfter_append]
    exact pinsAfter_all_low _ _ _ _ _ _ _

theorem Close_sequence_witness :
    (Close rpi opened).exit = Exit.ret ∧
    (Close rpi opened).h = { opened with active := false } ∧
    (Clear rpi opened).trace <+: (Close rpi opened).trace ∧
    busBytes (latched allLow (Clear rpi opened).trace)
      = ((false, rpi.lcdLine1 % 256) :: List.replicate rpi.Width.toNat (true, 32))
        ++ ((false, rpi.lcdLine2 % 256) :: List.replicate rpi.Width.toNat (true, 32))
        ++ ((false, rpi.lcdLine3 % 256) :: List.replicate rpi.Width.toNat (true, 32))
        ++ ((false, rpi.lcdLine4 % 256) :: List.replicate rpi.Width.toNat (true, 32)) ∧
    busBytes (latched allLow (Close rpi opened).trace)
      = ((false, rpi.lcdLine1 % 256) :: List.replicate rpi.Width.toNat (true, 32))
        ++ ((false, rpi.lcdLine2 % 256) :: List.replicate rpi.Width.toNat (true, 32))
        ++ ((false, rpi.lcdLine3 % 256) :: List.replicate rpi.Width.toNat (true, 32))
        ++ ((false, rpi.lcdLine4 % 256) :: List.replicate rpi.Width.toNat (true, 32))
        ++ [(false, 0x01), (false, 0x0C)] ∧
    busBytes (latched allLow (Close rpi opened).trace)
      = busBytes (latched allLow (Clear rpi opened).trace) ++ [(false, 0x01), (false, 0x0C)] ∧
    0x0C >>> 3 = 1 ∧
    (∃ body, (Close rpi opened).trace
      = body ++ [ Event.low Line.RS opened.lcdRS, Event.low Line.E opened.lcdE,
                  Event.low Line.D4 opened.lcdD4, Event.low Line.D5 opened.lcdD5,
                  Event.low Line.D6 opened.lcdD6, Event.low Line.D7 opened.lcdD7,
                  Event.rpioClose ]) ∧
    pinsAfter allLow (Close rpi opened).trace = allLow :=
  Close_sequence rpi opened allLow (by decide)

/-- C15: on the sample driver the last command byte `Close` transmits is 0x0C, whose
display-on bit 0x04 is set: the byte the initialization sequence sends for "display on",
not a display-off command (0x08). -/
theorem Close_last_command_display_on :
    opened.active = true ∧
    (busBytes (latched allLow (Close rpi opened).trace)).getLast? = some (false, 0x0C) ∧
    0x0C &&& 0x04 = 0x04 ∧
    (false, 0x0C) ∈ busBytes ((latched allLow (Reset rpi opened).trace).drop 4) := by
  refine ⟨by decide, ?_, by decide, ?_⟩
  · rw [Close_bus rpi opened allLow (by decide)]
    simp
  · rw [latched_of_latchedSettle]
    show (false, 0x0C) ∈ busBytes (((latchedSettle allLow (reset rpi opened)).map _).drop 4)
    rw [latchedSettle_reset]
    decide

/-- C16: on the sample driver, `Display(0, "Hi")`, then `Reset()`, then `Display(0, "Hi")`
again: `Reset` sends the clear-display command 0x01 and leaves the shadow buffers as
they were, and the last `Display` makes no call on the outside world at all. -/
theorem Display_after_Reset_skipped :
    busBytes (latched allLow (Display rpi opened 0 hi).trace) ≠ [] ∧
    (Reset rpi (Display rpi opened 0 hi).h).h = (Display rpi opened 0 hi).h ∧
    (busBytes ((latched allLow (Reset rpi (Display rpi opened 0 hi).h).trace).drop 4)).getLast?
      = some (false, 0x01) ∧
    Display rpi (Reset rpi (Display rpi opened 0 hi).h).h 0 hi
      = ⟨(Display rpi opened 0 hi).h, [], Exit.ret⟩ := by
  refine ⟨by decide, rfl, ?_, by decide⟩
  rw [latched_of_latchedSettle]
  show (busBytes (((latchedSettle allLow (reset rpi _)).map _).drop 4)).getLast? = _
  rw [latchedSettle_reset]
  decide

/-! ## The first `Display` on a row after `Open` -/

theorem padded_bytes (w : Nat) (text : List Nat) (htext : ∀ b ∈ text, b < 256) :
    ∀ b ∈ padded w text, b < 256 := by
  intro b hb
  unfold padded at hb
  split at hb
  · rcases List.mem_append.1 hb with hb | hb
    · exact htext b hb
    · rw [(List.mem_replicate.1 hb).2]
      decide
  · exact htext b (List.mem_of_mem_take hb)

theorem busBytes_row_text (k : Pkg) (h : GPIO4bit) (addr : Nat) (row : List Nat) (p : Pins)
    (haddr : addr < 256) (hrow : ∀ b ∈ row, b < 256) :
    busBytes (latched p (writeByte k h addr lcdCmd
        ++ row.flatMap (fun b => writeByte k h b lcdChr)))
      = (false, addr) :: row.map (fun c => (true, c)) := by
  have hflat := busBytes_flatMap k h lcdChr row (pinsAfter p (writeByte k h addr lcdCmd)) []
  simp only [List.append_nil] at hflat
  rw [busBytes_writeByte, hflat, Nat.mod_eq_of_lt haddr]
  simp only [latched, busBytes, List.append_nil, lcdCmd, lcdChr, List.cons.injEq, true_and]
  exact List.map_congr_left (fun b hb => by rw [Nat.mod_eq_of_lt (hrow b hb)])

theorem Open_fresh (k : Pkg) (h0 : GPIO4bit) (hin : h0.active = false)
    (hlines : 0 ≤ h0.Lines) :
    (Open k none h0).exit = Exit.ret ∧
    (Open k none h0).h.active = true ∧
    (Open k none h0).h.Lines = h0.Lines ∧
    (Open k none h0).h.LinesAddr = h0.LinesAddr ∧
    (Open k none h0).h.Width = h0.Width ∧
    (Open k none h0).h.lastLines = List.replicate h0.Lines.toNat [] := by
  have hmk : makeStrings h0.Lines = .ok (List.replicate h0.Lines.toNat []) := by
    simp [makeStrings, show ¬ h0.Lines < 0 by omega]
  simp [Open, hin, hmk]

theorem afterCalls_other_rows (k : Pkg) (r : Int) (earlier : List Call) (h : GPIO4bit)
    (hother : ∀ c ∈ earlier, ∃ r' t, c = Call.Display r' t ∧ r' ≠ r) :
    (afterCalls k h earlier).active = h.active ∧
    (afterCalls k h earlier).Lines = h.Lines ∧
    (afterCalls k h earlier).LinesAddr = h.LinesAddr ∧
    (afterCalls k h earlier).Width = h.Width ∧
    goIndex (afterCalls k h earlier).lastLines r = goIndex h.lastLines r := by
  induction earlier generalizing h with
  | nil => exact ⟨rfl, rfl, rfl, rfl, rfl⟩
  | cons c cs ih =>
    obtain ⟨r', t, hc, hne⟩ := hother c (List.mem_cons_self _ _)
    obtain ⟨-, hL, hA, hW, hact, -, hrows⟩ := Display_rest_unchanged k h r' t
    obtain ⟨i1, i2, i3, i4, i5⟩ := ih (Display k h r' t).h
      (fun c' hc' => hother c' (List.mem_cons_of_mem _ hc'))
    rw [hc]
    simp only [afterCalls, Call.run]
    exact ⟨i1.trans hact, i2.trans hL, i3.trans hA, i4.trans hW,
      i5.trans (hrows r (Ne.symm hne))⟩

/-- With the package-level width: take a constructed driver whose `Width` is the
package-level `Width`, with `Width > 0` and an address byte for every row, and open it
successfully. Then, whatever `Display` calls on
other rows came in between, the first `Display` on an in-range row `r` finds the empty
shadow entry `Open` allocated, which differs from every padded or cut text, and
transmits: the controller receives `LinesAddr[r]` and the `Width` bytes of the padded
or cut text, for every text. -/
theorem first_Display_transmits (k : Pkg) (h0 : GPIO4bit) (earlier : List Call) (r : Int)
    (text : List Nat) (p : Pins)
    (hin : h0.active = false) (hwidth : h0.Width = k.Width) (hpos : 0 < h0.Width)
    (hr0 : 0 ≤ r) (hr : r < h0.Lines) (haddrs : h0.Lines ≤ h0.LinesAddr.length)
    (htext : ∀ b ∈ text, b < 256) (hbyte : ∀ a ∈ h0.LinesAddr, a < 256)
    (hother : ∀ c ∈ earlier, ∃ r' t, c = Call.Display r' t ∧ r' ≠ r) :
    (Open k none h0).exit = Exit.ret ∧
    goIndex (afterCalls k (Open k none h0).h earlier).lastLines r = some [] ∧
    [] ≠ padded h0.Width.toNat text ∧
    (Display k (afterCalls k (Open k none h0).h earlier) r text).exit = Exit.ret ∧
    (∃ addr, goIndex h0.LinesAddr r = some addr ∧
      busBytes (latched p (Display k (afterCalls k (Open k none h0).h earlier) r text).trace)
        = (false, addr) :: (padded h0.Width.toNat text).map (fun c => (true, c))) ∧
    goIndex (Display k (afterCalls k (Open k none h0).h earlier) r text).h.lastLines r
      = some (padded h0.Width.toNat text) := by
  obtain ⟨hret, oact, oL, oA, oW, oshadow⟩ := Open_fresh k h0 hin (by omega)
  obtain ⟨fact, fL, fA, fW, frow⟩ := afterCalls_other_rows k r earlier (Open k none h0).h hother
  generalize afterCalls k (Open k none h0).h earlier = h at fact fL fA fW frow ⊢
  have hfresh : goIndex h.lastLines r = some [] := by
    rw [frow, oshadow]
    unfold goIndex
    simp [show ¬ r < 0 by omega, List.getElem?_replicate, show r.toNat < h0.Lines.toNat by omega]
  obtain ⟨addr, haddr, hmem⟩ := goIndex_in_range h0.LinesAddr r hr0 (by omega)
  have hne : ([] : List Nat) ≠ padded h0.Width.toNat text := by
    intro hcon
    have hlen := padded_length h0.Width.toNat text
    rw [← hcon] at hlen
    simp at hlen
    omega
  have hW : h.Width = h0.Width := fW.trans oW
  have hrun := Display_sends k h r text (padded h.Width.toNat text) [] addr
    (fact.trans oact) (by rw [fL, oL]; exact hr)
    (padOrCut_default k h text (hW.trans hwidth) (by omega)) (padded_length _ _) hfresh
    (by rw [hW]; exact hne) (by rw [fA, oA]; exact haddr)
  rw [hW] at hrun
  refine ⟨hret, hfresh, hne, by rw [hrun], ⟨addr, haddr, ?_⟩, ?_⟩
  · rw [hrun]
    exact busBytes_row_text k h addr _ p (hbyte addr hmem) (padded_bytes _ text htext)
  · rw [hrun]
    exact goIndex_set_same _ _ _ _ hfresh

theorem first_Display_transmits_witness :
    (Open rpi none (NewGPIO4bit rpi)).exit = Exit.ret ∧
    goIndex (afterCalls rpi (Open rpi none (NewGPIO4bit rpi)).h [.Display 0 hi]).lastLines 1
      = some [] ∧
    [] ≠ padded (NewGPIO4bit rpi).Width.toNat [] ∧
    (Display rpi (afterCalls rpi (Open rpi none (NewGPIO4bit rpi)).h [.Display 0 hi]) 1
      []).exit = Exit.ret ∧
    (∃ addr, goIndex (NewGPIO4bit rpi).LinesAddr 1 = some addr ∧
      busBytes (latched allLow
          (Display rpi (afterCalls rpi (Open rpi none (NewGPIO4bit rpi)).h [.Display 0 hi]) 1
            []).trace)
        = (false, addr) :: (padded (NewGPIO4bit rpi).Width.toNat []).map (fun c => (true, c))) ∧
    goIndex (Display rpi (afterCalls rpi (Open rpi none (NewGPIO4bit rpi)).h [.Display 0 hi]) 1
        []).h.lastLines 1
      = some (padded (NewGPIO4bit rpi).Width.toNat []) :=
  first_Display_transmits rpi (NewGPIO4bit rpi) [.Display 0 hi] 1 [] allLow (by decide)
    (by decide) (by decide) (by decide) (by decide) (by decide) (by decide) (by decide)
    (by
      intro c hc
      rw [List.mem_singleton] at hc
      exact ⟨0, hi, hc, by decide⟩)

/-- C19: on the sample driver with `Width` overridden to 8 (the package-level `Width`
is 16), `Open` succeeds and leaves the empty shadow entry on row 0; the first `Display`
on row 0 with a 10-byte text takes the padding branch of line 264 with a negative count
and panics: no pin-state call is made and nothing reaches the controller, so this first
write is not transmitted. -/
theorem first_Display_narrow_not_transmitted :
    (Open rpi none { NewGPIO4bit rpi with Width := 8 }).exit = Exit.ret ∧
    narrow.active = true ∧ 0 < narrow.Width ∧ (0 : Int) < narrow.Lines ∧
    goIndex narrow.lastLines 0 = some [] ∧
    (Display rpi narrow 0 (List.replicate 10 65)).exit
      = Exit.panic "strings: negative Repeat count" ∧
    pinCalls (Display rpi narrow 0 (List.replicate 10 65)).trace = 0 ∧
    busBytes (latched allLow (Display rpi narrow 0 (List.replicate 10 65)).trace) = [] ∧
    (Display rpi narrow 0 (List.replicate 10 65)).h = narrow := by
  decide

end HD44780
